import Mathlib

set_option autoImplicit false
set_option maxRecDepth 16000

/-!
Shallow embedding of the callback-pipeline core of the `kimhyunso/backend`
repository (FastAPI + MongoDB media-dubbing service).

The embedding models the MongoDB collections touched by the job-callback
endpoint as in-memory lists of documents, Python exceptions as an explicit
error component threaded through a state monad, and the untyped callback
`metadata` dict as a structure of optional fields whose reads mirror the
Python truthiness tests performed by the source.

Sources embedded:
  - `src/app/api/jobs/routes.py` (`set_job_status`, `check_and_create_segments`,
    `process_md_completion`, `create_asset_from_result`, dispatch helpers)
  - `src/app/api/jobs/service.py` (`update_job_status`, `mark_job_failed`,
    `create_job`, `enqueue_job`, `_build_job_message`, `start_jobs_for_targets`)
  - `src/app/api/jobs/job_utils.py` (`find_segment_id_from_metadata`,
    `extract_error_message`)
  - `src/app/api/jobs/segment_handler.py` (`process_segment_tts_failed`)
  - `src/app/api/jobs/event_dispatcher.py` (`dispatch_audio_completed`)
  - `src/app/api/project/service.py` (`ProjectService` methods)
  - `src/app/api/pipeline/router.py` and `src/app/api/audio/router.py`
    (subscriber registries of the two SSE channel scopes)
-/

/-- A scalar value of the untyped worker payloads: either a Python int/float
(collapsed to `Int`; no claim depends on fractional values) or a string. -/
inductive PyVal where
  | pint (n : Int)
  | pstr (s : String)
deriving DecidableEq, Repr

/-- Accumulates decimal digits; fails on any non-digit character. -/
def parseDigitsAux : List Char → Nat → Option Nat
  | [], acc => some acc
  | c :: cs, acc =>
    if c.isDigit then parseDigitsAux cs (acc * 10 + (c.toNat - 48)) else none

/-- Parses an optional leading minus followed by decimal digits — the subset
of Python's `int(str)` domain the claims need (kept structurally recursive so
concrete runs reduce). -/
def strToInt : List Char → Option Int
  | [] => none
  | '-' :: cs =>
    (match cs with
     | [] => none
     | _ => (parseDigitsAux cs 0).map (fun n => -(Int.ofNat n)))
  | cs => (parseDigitsAux cs 0).map Int.ofNat

/-- Model of Python `int(v)`: succeeds on numbers and on strings that parse
as an integer literal, raises `ValueError` (here `Except.error`) otherwise. -/
def pyInt : PyVal → Except Unit Int
  | .pint n => .ok n
  | .pstr s => match strToInt s.toList with
    | some n => .ok n
    | none => .error ()

/-- Model of Python `float(v)` restricted to the integral values the claims
need: succeeds on numbers and integer-literal strings, raises otherwise. -/
def pyFloat : PyVal → Except Unit Int
  | .pint n => .ok n
  | .pstr s => match strToInt s.toList with
    | some n => .ok n
    | none => .error ()

/-- Python truthiness of an optional string (`None` and the empty string are
falsy). Returns the value only when truthy. -/
def strTruthy : Option String → Option String
  | some s => if s = "" then none else some s
  | none => none

/-- Python truthiness of an optional list (`None` and `[]` are falsy). -/
def listTruthy {α : Type} : Option (List α) → Option (List α)
  | some l => if l.isEmpty then none else some l
  | none => none

/-- Python `a or b` on two optional strings under truthiness. -/
def strOr (a b : Option String) : Option String :=
  match strTruthy a with
  | some s => some s
  | none => strTruthy b

/-- Model of `ObjectId(s)` on a string: the embedding identifies BSON
ObjectIds with their hex strings, so the conversion is the identity and the
parse-failure branches of the source (which only log and soft-fail) are not
represented. -/
def objectId (s : String) : String := s

/-- Lookup in a Python-dict model (association list, first match wins). -/
def dictLookup {α : Type} (d : List (String × α)) (k : String) : Option α :=
  (d.find? (fun p => p.1 = k)).map (·.2)

/-- Python `d[k] = v` on a dict modelled as an association list: an existing
key keeps its position and gets the new value, a new key is appended. -/
def dictSet {α : Type} (d : List (String × α)) (k : String) (v : α) :
    List (String × α) :=
  if (d.find? (fun p => p.1 = k)).isSome then
    d.map (fun p => if p.1 = k then (k, v) else p)
  else
    d ++ [(k, v)]

/-- Python `d.update(other)` (used to flatten a task payload into a message). -/
def dictUpdate {α : Type} (d other : List (String × α)) : List (String × α) :=
  other.foldl (fun acc p => dictSet acc p.1 p.2) d

/-- Integer-keyed dict used for the `segment_index` to Mongo-id mapping. -/
def imapSet (d : List (Int × String)) (k : Int) (v : String) :
    List (Int × String) :=
  if (d.find? (fun p => p.1 = k)).isSome then
    d.map (fun p => if p.1 = k then (k, v) else p)
  else
    d ++ [(k, v)]

/-- Lookup in the `segment_index` to Mongo-id mapping. -/
def imapLookup (d : List (Int × String)) (k : Int) : Option String :=
  (d.find? (fun p => p.1 = k)).map (·.2)

/-- The per-speaker voice payload carried by `speaker_voices`; the code treats
it as an opaque dict, modelled as speaker-name keyed strings. -/
abbrev SpeakerVoices := List (String × String)

/-- Document of the `project_segments` collection. -/
structure SegDoc where
  id : String
  project_id : String
  speaker_tag : String
  seg_start : Int
  seg_end : Int
  source_text : String
  segment_index : Int
  is_verified : Bool
  created_at : Nat
deriving DecidableEq, Repr

/-- Document of the `segment_translations` collection. -/
structure TransDoc where
  id : String
  segment_id : String
  language_code : String
  target_text : String
  segment_audio_url : Option String
  created_at : Nat
deriving DecidableEq, Repr

/-- Status enum of `ProjectTargetStatus`. -/
inductive TargetStatus where
  | pending
  | processing
  | completed
  | failed
deriving DecidableEq, Repr

/-- Document of the `project_targets` collection. -/
structure TargetDoc where
  project_id : String
  language_code : String
  status : TargetStatus
  progress : Int
deriving DecidableEq, Repr

/-- Document of the `projects` collection (fields the callback path touches). -/
structure ProjectDoc where
  id : String
  status : String
  audio_source : Option String
  vocal_source : Option String
  background_audio_source : Option String
  default_speaker_voices : List (String × SpeakerVoices)
  segment_assets_prefix : Option String
  voice_config : Option PyVal
deriving DecidableEq, Repr

/-- One entry of a Job's append-only history (timestamps elided). -/
structure HistEntry where
  status : String
  message : Option String
deriving DecidableEq, Repr

/-- Document of the `jobs` collection. -/
structure JobDoc where
  id : String
  project_id : String
  input_key : Option String
  callback_url : String
  status : String
  result_key : Option String
  error : Option String
  history : List HistEntry
  task : Option String
  task_payload : List (String × PyVal)
  target_lang : Option String
  source_lang : Option String
deriving DecidableEq, Repr

/-- Modelled from the spec: the Asset record created by the external
`AssetService` for a completed preview video (`app/api/assets` is not part of
the provided sources; the spec describes `create_preview_asset(project_id,
lang, key)`). -/
structure AssetDoc where
  project_id : String
  language_code : String
  asset_type : String
  file_path : String
deriving DecidableEq, Repr

/-- A `target_update` event published to the per-project SSE channel. -/
structure TargetEvent where
  project_id : String
  language_code : String
  status : TargetStatus
  progress : Int
deriving DecidableEq, Repr

/-- An audio event published to the per-(project, language) SSE channel. -/
structure AudioEvent where
  event : String
  segmentId : String
  projectId : String
  languageCode : String
  status : Option String
  audioS3Key : Option String
  audioDuration : Option Int
  error : Option String
deriving DecidableEq, Repr

/-- The mutable world the callback path acts on: the Mongo collections plus
the streams of events pushed to the two SSE channel scopes and a counter for
freshly generated ObjectIds. -/
structure St where
  jobs : List JobDoc
  projects : List ProjectDoc
  project_segments : List SegDoc
  segment_translations : List TransDoc
  project_targets : List TargetDoc
  assets : List AssetDoc
  targetEvents : List TargetEvent
  audioEvents : List (String × AudioEvent)
  freshCtr : Nat
deriving DecidableEq, Repr

/-- Model of fresh BSON ObjectId generation: the n-th generated id. Any
injection serves, since the code only compares ids for equality; this one
makes uniqueness arguments elementary. -/
def oidOf (n : Nat) : String := "id" ++ String.mk (List.replicate n 'x')

/-- Python exceptions distinguished by the embedding. -/
inductive PyErr where
  | valueError
  | httpError (code : Nat)
  | sqsPublishError
deriving DecidableEq, Repr

/-- The effect monad of the embedding: state passing with explicit
exceptions. State changes made before an exception is raised persist, exactly
as Mongo writes performed before a Python exception do. -/
def M (α : Type) : Type := St → Except PyErr α × St

namespace M

def pure {α : Type} (a : α) : M α := fun st => (.ok a, st)

def bind {α β : Type} (m : M α) (f : α → M β) : M β := fun st =>
  match m st with
  | (.ok a, st') => f a st'
  | (.error e, st') => (.error e, st')

instance : Monad M where
  pure := M.pure
  bind := M.bind

def throw {α : Type} (e : PyErr) : M α := fun st => (.error e, st)

/-- Model of a `try ... except Exception:` block: the body's state changes
up to the exception persist, the exception itself is swallowed and the
handler computation runs from the state at the raise point. -/
def attempt {α : Type} (m : M α) (handler : M α) : M α := fun st =>
  match m st with
  | (.ok a, st') => (.ok a, st')
  | (.error _, st') => handler st'

def get : M St := fun st => (.ok st, st)

def modify (f : St → St) : M Unit := fun st => (.ok (), f st)

/-- Model of `ObjectId()` generation: a fresh identifier from the counter. -/
def freshId : M String := fun st =>
  (.ok (oidOf st.freshCtr), { st with freshCtr := st.freshCtr + 1 })

end M

/-- Update the first element satisfying `p` (Mongo `update_one` semantics). -/
def updateFirst {α : Type} (p : α → Bool) (f : α → α) : List α → List α
  | [] => []
  | x :: xs => if p x then f x :: xs else x :: updateFirst p f xs

/-- One element of a callback `metadata.segments` list: the union of the keys
the source reads on the legacy worker shape, the new metadata shape and the
segment-TTS result shape. A `none` field models an absent dict key. -/
structure SegInput where
  speaker_tag : Option String := none
  speaker : Option String := none
  seg_start : Option PyVal := none
  seg_end : Option PyVal := none
  source_text : Option String := none
  segment_index : Option Int := none
  seg_idx : Option PyVal := none
  segment_id : Option PyVal := none
  prompt_text : Option String := none
  audio_file : Option String := none
  index : Option Int := none
  audio_key : Option String := none
deriving DecidableEq, Repr

/-- The free-form callback `metadata` dict, restricted to the keys the source
reads. A `none` field models an absent key. -/
structure Metadata where
  stage : Option String := none
  target_lang : Option String := none
  language_code : Option String := none
  segment_id : Option String := none
  segments : Option (List SegInput) := none
  speaker_voices : Option SpeakerVoices := none
  speaker_refs : Option SpeakerVoices := none
  audio_key : Option String := none
  vocals_key : Option String := none
  background_key : Option String := none
  result_key : Option String := none
  metadata_key : Option String := none
  error : Option String := none
  translations : Option (List String) := none
  translated_texts : Option (List String) := none
  voice_sample_id : Option String := none
  segment_assets_prefix : Option String := none
deriving DecidableEq, Repr

/-- A message published to the SQS job queue: the serialized body built by
`_build_job_message` plus the FIFO attributes attached by `enqueue_job`
(`src/app/api/jobs/service.py`). -/
structure SqsMessage where
  body : List (String × PyVal)
  messageGroupId : Option String := none
  messageDeduplicationId : Option String := none
deriving DecidableEq, Repr

/-- External collaborators of the callback path (S3 metadata fetch + parse,
audio-duration probe, SQS publish), supplied as parameters. -/
structure Env where
  /-- Modelled from the spec: `download_metadata_from_s3` composed with
  `parse_segments_from_metadata` (`app/utils/s3.py` is not part of the
  provided sources; the spec describes fetching the referenced document and
  parsing it into segments and translated texts, with fetch or parse failure
  triggering the inline fallback). -/
  downloadParseMetadata : String → Except Unit (List SegInput × Option (List String))
  /-- Result of `get_audio_duration_from_s3` (external probe; may raise). -/
  audioDuration : String → Except Unit (Option Int)
  /-- Result of the boto3 `send_message` call. -/
  sqsSend : SqsMessage → Except Unit Unit

/-- The body of `POST /jobs/{job_id}/status`. Modelled from the spec: the
`JobUpdateStatus` pydantic model lives in `app/api/jobs/models.py`, which is
not part of the provided sources; its fields are taken from the spec's
callback description and the usage in `routes.py`/`service.py`. -/
structure JobUpdateStatus where
  status : String
  result_key : Option String := none
  error : Option String := none
  message : Option String := none
  metadata : Option Metadata := none
deriving Repr

/-- Modelled from the spec: `extract_language_code(target)` from
`app/utils/project_utils.py` (not in the provided sources); the spec says the
fallback uses the project's first declared target language, and the call site
passes a `ProjectTarget`, so the function reads its language code. -/
def extract_language_code (t : TargetDoc) : String := t.language_code

/-- Embeds `extract_error_message` from `src/app/api/jobs/job_utils.py`:
Python `metadata.get("error") or default`. -/
def extract_error_message (m : Metadata) (default : String) : String :=
  match strTruthy m.error with
  | some e => e
  | none => default

/-- Embeds `find_segment_id_from_metadata` from
`src/app/api/jobs/job_utils.py`. The inner `try` around the index lookup
catches every exception and falls through to `None`; in the model the lookup
itself cannot raise, so the function is total. -/
def find_segment_id_from_metadata (project_id : String) (m : Metadata) :
    M (Option String) := do
  match strTruthy m.segment_id with
  | some sid => pure (some sid)
  | none =>
    match listTruthy m.segments with
    | none => pure none
    | some segs =>
      match segs with
      | [] => pure none
      | seg_result :: _ =>
        match seg_result.index with
        | none => pure none
        | some segment_index => do
          let st ← M.get
          match st.project_segments.find?
              (fun d => d.project_id = objectId project_id &&
                        d.segment_index = segment_index) with
          | some d => pure (some d.id)
          | none => pure none

namespace ProjectService

/-- The `$set` payload of `ProjectService.update_project`
(`src/app/api/project/service.py`): `ProjectUpdate` restricted to the fields
the callback path writes, with `exclude_none` semantics (only `some` fields
are set). -/
structure UpdateArgs where
  project_id : String
  status : Option String := none
  audio_source : Option String := none
  vocal_source : Option String := none
  background_audio_source : Option String := none
  default_speaker_voices : Option (List (String × SpeakerVoices)) := none

/-- Apply the `$set` of `update_project` to one project document. -/
def applyUpdate (p : UpdateArgs) (d : ProjectDoc) : ProjectDoc :=
  { d with
    status := p.status.getD d.status,
    audio_source := (if p.audio_source.isSome then p.audio_source
                     else d.audio_source),
    vocal_source := (if p.vocal_source.isSome then p.vocal_source
                     else d.vocal_source),
    background_audio_source := (if p.background_audio_source.isSome
                                then p.background_audio_source
                                else d.background_audio_source),
    default_speaker_voices :=
      p.default_speaker_voices.getD d.default_speaker_voices }

/-- Embeds `ProjectService.update_project`: `update_one` on the project, then
a re-read that raises 404 when the project does not exist. -/
def update_project (p : UpdateArgs) : M ProjectDoc := do
  M.modify (fun st =>
    { st with projects :=
        (updateFirst (fun d => d.id = objectId p.project_id) (applyUpdate p)
          st.projects) })
  let st ← M.get
  match st.projects.find? (fun d => d.id = objectId p.project_id) with
  | none => M.throw (.httpError 404)
  | some doc => pure doc

/-- Embeds `ProjectService.get_targets_by_project` (no language filter, as
called from the callback path). -/
def get_targets_by_project (project_id : String) : M (List TargetDoc) := do
  let st ← M.get
  pure (st.project_targets.filter (fun t => t.project_id = project_id))

/-- Embeds `ProjectService.update_targets_by_project_and_language`:
`find_one` raising 404 when no target matches, then `update_one` applying the
`exclude_none` `$set` of a `ProjectTargetUpdate`, then a re-read. -/
def update_targets_by_project_and_language (project_id language_code : String)
    (status : Option TargetStatus) (progress : Option Int) : M TargetDoc := do
  let st ← M.get
  match st.project_targets.find?
      (fun t => t.project_id = project_id && t.language_code = language_code) with
  | none => M.throw (.httpError 404)
  | some _ => do
    M.modify (fun st =>
      { st with project_targets :=
          (updateFirst
            (fun t => t.project_id = project_id && t.language_code = language_code)
            (fun t => { t with
              status := status.getD t.status,
              progress := progress.getD t.progress })
            st.project_targets) })
    let st' ← M.get
    match st'.project_targets.find?
        (fun t => t.project_id = project_id && t.language_code = language_code) with
    | none => M.throw (.httpError 404)
    | some doc => pure doc

end ProjectService

/-- Embeds `dispatch_target_update` from `src/app/api/jobs/routes.py`: the
`target_update` event is put on every queue currently subscribed to the
project channel; the model records the published event itself, per-subscriber
delivery being the EventBus model below. -/
def dispatch_target_update (project_id language_code : String)
    (target_status : TargetStatus) (progress : Int) : M Unit :=
  M.modify (fun st =>
    { st with targetEvents :=
        st.targetEvents ++
          [{ project_id := project_id, language_code := language_code,
             status := target_status, progress := progress }] })

/-- Embeds `dispatch_audio_completed` from `src/app/api/jobs/routes.py` (the
inline variant used by the `segment_tts_completed` branch of
`set_job_status`): always an `audio-completed` event carrying key and
duration, on the channel keyed by project and language. -/
def dispatch_audio_completed_routes (project_id language_code segment_id
    audio_s3_key : String) (audio_duration : Int) : M Unit :=
  M.modify (fun st =>
    { st with audioEvents :=
        st.audioEvents ++
          [(project_id ++ ":" ++ language_code,
            { event := "audio-completed", segmentId := segment_id,
              projectId := project_id, languageCode := language_code,
              status := none, audioS3Key := some audio_s3_key,
              audioDuration := some audio_duration, error := none })] })

/-- Embeds `dispatch_audio_completed` from
`src/app/api/jobs/event_dispatcher.py` (the variant with a status and an
optional error used by `segment_handler.py`). -/
def dispatch_audio_completed_dispatcher (project_id language_code segment_id :
    String) (audio_s3_key : Option String := none)
    (audio_duration : Option Int := none) (status : String := "completed")
    (error_message : Option String := none) : M Unit :=
  M.modify (fun st =>
    { st with audioEvents :=
        st.audioEvents ++
          [(project_id ++ ":" ++ language_code,
            { event := if status = "completed" then "audio-completed"
                       else "audio-failed",
              segmentId := segment_id, projectId := project_id,
              languageCode := language_code, status := some status,
              audioS3Key := strTruthy audio_s3_key,
              audioDuration := audio_duration,
              error := strTruthy error_message })] })

/-- Embeds `process_segment_tts_failed` from
`src/app/api/jobs/segment_handler.py`: resolve the segment id, extract the
error message (default `TTS generation failed`) and publish an audio-failed
event; the whole body is inside `try/except`. -/
def process_segment_tts_failed (project_id language_code : String)
    (m : Metadata) : M Unit :=
  M.attempt
    (do
      let segment_id ← find_segment_id_from_metadata project_id m
      match segment_id with
      | none => pure ()
      | some sid => do
        let error_message := extract_error_message m "TTS generation failed"
        dispatch_audio_completed_dispatcher project_id language_code sid
          none none "failed" (some error_message))
    (pure ())

/-- The `segment_data` dict built by `check_and_create_segments`
(`src/app/api/jobs/routes.py`) for one input segment, before Mongo assigns
an id. -/
structure SegCreate where
  project_id : String
  speaker_tag : String
  seg_start : Int
  seg_end : Int
  source_text : String
  segment_index : Int
deriving DecidableEq, Repr

/-- Shape-detection and normalization of one input segment, mirroring the
first loop of `check_and_create_segments`: the new shape is recognized by the
presence of the `speaker_tag` key; the `float` casts of `start`/`end` and the
`int` cast of `seg_idx` are not guarded and raise `ValueError` on malformed
values, while the `int` cast of `segment_id` is guarded with a positional
fallback. -/
def normalizeSegment (project_id : String) (i : Nat) (seg : SegInput) :
    Except PyErr SegCreate := do
  if seg.speaker_tag.isSome then
    let s ← (pyFloat (seg.seg_start.getD (.pint 0))).mapError
      (fun _ => PyErr.valueError)
    let e ← (pyFloat (seg.seg_end.getD (.pint 0))).mapError
      (fun _ => PyErr.valueError)
    Except.ok
      { project_id := project_id, speaker_tag := seg.speaker_tag.getD "",
        seg_start := s, seg_end := e,
        source_text := seg.source_text.getD "",
        segment_index := seg.segment_index.getD (Int.ofNat i) }
  else
    let s ← (pyFloat (seg.seg_start.getD (.pint 0))).mapError
      (fun _ => PyErr.valueError)
    let e ← (pyFloat (seg.seg_end.getD (.pint 0))).mapError
      (fun _ => PyErr.valueError)
    let idx ←
      match seg.seg_idx with
      | some v => (pyInt v).mapError (fun _ => PyErr.valueError)
      | none =>
        match seg.segment_id with
        | some v =>
          Except.ok (match pyInt v with
            | .ok n => n
            | .error _ => Int.ofNat i)
        | none => Except.ok (Int.ofNat i)
    Except.ok
      { project_id := project_id, speaker_tag := seg.speaker.getD "",
        seg_start := s, seg_end := e,
        source_text := seg.source_text.getD "",
        segment_index := idx }

/-- The full `segments_to_create` list of `check_and_create_segments` with
positional indices from `enumerate`. -/
def normalizeSegments (project_id : String) :
    Nat → List SegInput → Except PyErr (List SegCreate)
  | _, [] => Except.ok []
  | i, seg :: rest => do
    let d ← normalizeSegment project_id i seg
    let ds ← normalizeSegments project_id (i + 1) rest
    Except.ok (d :: ds)

/-- Model of `insert_many` on `project_segments`: append each document with a
fresh ObjectId and return the inserted documents (the source reads
`result.inserted_ids`). -/
def insertSegs (now : Nat) : List SegCreate → M (List SegDoc)
  | [] => M.pure []
  | d :: ds => do
    let oid ← M.freshId
    let doc : SegDoc :=
      { id := oid, project_id := d.project_id, speaker_tag := d.speaker_tag,
        seg_start := d.seg_start, seg_end := d.seg_end,
        source_text := d.source_text, segment_index := d.segment_index,
        is_verified := false, created_at := now }
    M.modify (fun st =>
      { st with project_segments := st.project_segments ++ [doc] })
    let rest ← insertSegs now ds
    pure (doc :: rest)

/-- The `segment_ids_map` built from `result.inserted_ids` after a bulk
create (`for idx, seg_id in enumerate(result.inserted_ids)`). -/
def buildMapInserted (inserted : List SegDoc) : List (Int × String) :=
  inserted.foldl (fun m d => imapSet m d.segment_index d.id) []

/-- The `segment_ids_map` built from already-existing rows
(`for seg in existing_segments`). -/
def buildMapExisting (existing : List SegDoc) : List (Int × String) :=
  existing.foldl (fun m d => imapSet m d.segment_index d.id) []

/-- The `translation_data` dict built by the second loop of
`check_and_create_segments`, before the upsert. -/
structure TransData where
  segment_id : String
  language_code : String
  target_text : String
  segment_audio_url : Option String
deriving DecidableEq, Repr

/-- The `seg_index` determination of the translation loop: `segment_index`
used directly when present, `seg_idx` cast unguarded, `segment_id` cast with
positional fallback, else the positional index. -/
def translationIndex (i : Nat) (seg : SegInput) : Except PyErr Int :=
  match seg.segment_index with
  | some n => Except.ok n
  | none =>
    match seg.seg_idx with
    | some v => (pyInt v).mapError (fun _ => PyErr.valueError)
    | none =>
      match seg.segment_id with
      | some v =>
        Except.ok (match pyInt v with
          | .ok n => n
          | .error _ => Int.ofNat i)
      | none => Except.ok (Int.ofNat i)

/-- The `translations_to_create` list: for every input segment, resolve its
Mongo id through `segment_ids_map` (skipping unresolved indices), pick the
translated text from `translated_texts[i]` when that list is truthy and long
enough, else the legacy `prompt_text`, and carry the optional `audio_file`. -/
def buildTranslations (target_lang : String)
    (translated_texts : Option (List String)) (ids_map : List (Int × String)) :
    Nat → List SegInput → Except PyErr (List TransData)
  | _, [] => Except.ok []
  | i, seg :: rest => do
    let idx ← translationIndex i seg
    let tail ← buildTranslations target_lang translated_texts ids_map (i + 1) rest
    match imapLookup ids_map idx with
    | none => Except.ok tail
    | some segment_obj_id =>
      let useNew :=
        match listTruthy translated_texts with
        | some l => decide (i < l.length)
        | none => false
      let translated_text :=
        if useNew then ((translated_texts.getD []).getD i "")
        else seg.prompt_text.getD ""
      let audio_url := seg.audio_file
      Except.ok
        ({ segment_id := segment_obj_id, language_code := target_lang,
           target_text := translated_text, segment_audio_url := audio_url }
          :: tail)

/-- One `update_one(..., upsert=True)` on `segment_translations`, keyed by
`(segment_id, language_code)`: update the first match or insert a new
document. -/
def upsertTranslation (now : Nat) (t : TransData) : M Unit := do
  let st ← M.get
  if (st.segment_translations.find?
      (fun d => d.segment_id = t.segment_id &&
                d.language_code = t.language_code)).isSome then
    M.modify (fun st =>
      { st with segment_translations :=
          (updateFirst
            (fun d => d.segment_id = t.segment_id &&
                      d.language_code = t.language_code)
            (fun d =>
              { d with target_text := t.target_text,
                       segment_audio_url := t.segment_audio_url,
                       created_at := now })
            st.segment_translations) })
  else do
    let oid ← M.freshId
    M.modify (fun st =>
      { st with segment_translations :=
          st.segment_translations ++
            [{ id := oid, segment_id := t.segment_id,
               language_code := t.language_code,
               target_text := t.target_text,
               segment_audio_url := t.segment_audio_url,
               created_at := now }] })

/-- The sequential upsert loop over `translations_to_create`. -/
def applyUpserts (now : Nat) : List TransData → M Unit
  | [] => M.pure ()
  | t :: rest => do
    upsertTranslation now t
    applyUpserts now rest

/-- Embeds `check_and_create_segments` from `src/app/api/jobs/routes.py`
(duplicated verbatim in `src/app/api/jobs/segment_handler.py`). The
`get_segments_by_project` accessor comes from the absent
`app/api/segment/segment_service.py`; modelled from the spec as reading the
project's existing `ProjectSegment` rows. Mongo itself never fails in the
model, so the `except` branches around `insert_many` and the upsert loop are
unreachable, while the unguarded `float`/`int` casts can raise out of the
function. -/
def check_and_create_segments (now : Nat) (project_id : String)
    (segments : List SegInput) (target_lang : String)
    (translated_texts : Option (List String) := none) : M Bool := do
  let st ← M.get
  let existing_segments :=
    st.project_segments.filter (fun d => d.project_id = project_id)
  let res ←
    if existing_segments.isEmpty then
      match normalizeSegments project_id 0 segments with
      | .error e => M.throw e
      | .ok segments_to_create =>
        if segments_to_create.isEmpty then
          pure (false, ([] : List (Int × String)))
        else do
          let inserted ← insertSegs now segments_to_create
          pure (true, buildMapInserted inserted)
    else
      pure (false, buildMapExisting existing_segments)
  let segments_created := res.1
  let segment_ids_map := res.2
  if !segments.isEmpty && target_lang ≠ "" then
    match buildTranslations target_lang translated_texts segment_ids_map 0
        segments with
    | .error e => M.throw e
    | .ok translations_to_create =>
      if !translations_to_create.isEmpty then
        M.attempt (applyUpserts now translations_to_create) (pure ())
      else pure ()
  else pure ()
  pure (segments_created || !existing_segments.isEmpty)

/-- Embeds `create_asset_from_result` from `src/app/api/jobs/routes.py`; the
`AssetService.create_asset` call is external (`app/api/assets` absent),
modelled from the spec as recording a preview Asset; the whole body is
guarded by `try/except`. -/
def create_asset_from_result (project_id target_lang result_key : String) :
    M Unit :=
  M.attempt
    (M.modify (fun st =>
      { st with assets :=
          st.assets ++
            [{ project_id := project_id, language_code := target_lang,
               asset_type := "preview", file_path := result_key }] }))
    (pure ())

/-- Embeds `process_md_completion` from `src/app/api/jobs/routes.py`: resolve
the target language (warn-and-return when absent), create the preview asset,
then reconcile segments either from the fetched S3 metadata document (with
inline fallback on fetch/parse failure) or from the inline
`metadata.segments`. The fallback and inline calls to
`check_and_create_segments` are not guarded. -/
def process_md_completion (env : Env) (now : Nat) (project_id : String)
    (m : Metadata) (result_key : Option String)
    (defaultTarget : Option String := none) : M Unit := do
  match strOr m.target_lang defaultTarget with
  | none => pure ()
  | some target_lang => do
    match strTruthy result_key with
    | some rk => create_asset_from_result project_id target_lang rk
    | none => pure ()
    match strTruthy m.metadata_key with
    | some metadata_key =>
      M.attempt
        (match env.downloadParseMetadata metadata_key with
         | .error _ => M.throw .valueError
         | .ok fetched => do
           let segments := fetched.1
           let parsed_translations := fetched.2
           let translated_texts :=
             match listTruthy parsed_translations with
             | some l => some l
             | none =>
               match listTruthy m.translations with
               | some l => some l
               | none => listTruthy m.translated_texts
           if !segments.isEmpty then do
             let _ ← check_and_create_segments now project_id segments
               target_lang translated_texts
             pure ()
           else pure ())
        (do
          let segments := m.segments.getD []
          if !segments.isEmpty then do
            let _ ← check_and_create_segments now project_id segments target_lang
            pure ()
          else pure ())
    | none => do
      let segments := m.segments.getD []
      if !segments.isEmpty then do
        let _ ← check_and_create_segments now project_id segments target_lang
        pure ()
      else pure ()

/-- The `$set`/`$push` of `update_job_status` (`src/app/api/jobs/service.py`)
applied to the job document: status and a new history entry always,
`result_key`/`error` only when the payload carries them. -/
def applyJobStatusUpdate (payload : JobUpdateStatus) (message : Option String)
    (j : JobDoc) : JobDoc :=
  { j with
    status := payload.status,
    history := j.history ++
      [{ status := payload.status, message := strOr message payload.message }],
    result_key := (if payload.result_key.isSome then payload.result_key
                   else j.result_key),
    error := (if payload.error.isSome then payload.error else j.error) }

/-- Embeds `update_job_status` from `src/app/api/jobs/service.py`: the
primary Job write (404 when the job is unknown), followed by the project
document update that copies the raw `metadata.stage` (or, by `setdefault`,
the payload status) into the project's top-level `status` and carries an
optional `segment_assets_prefix`; a project whose id does not resolve is
silently skipped, and Mongo errors there are caught and logged. -/
def update_job_status (job_id : String) (payload : JobUpdateStatus)
    (message : Option String := none) : M JobDoc := do
  let st ← M.get
  match st.jobs.find? (fun j => j.id = objectId job_id) with
  | none => M.throw (.httpError 404)
  | some _ => do
    M.modify (fun st =>
      { st with jobs :=
          (updateFirst (fun j => j.id = objectId job_id)
            (applyJobStatusUpdate payload message) st.jobs) })
    let st' ← M.get
    match st'.jobs.find? (fun j => j.id = objectId job_id) with
    | none => M.throw (.httpError 404)
    | some updated => do
      let statusFromStage : Option String :=
        match payload.metadata with
        | some m => strTruthy m.stage
        | none => none
      let prefixUpd : Option String :=
        match payload.metadata with
        | some m => strTruthy m.segment_assets_prefix
        | none => none
      let statusUpd : Option String :=
        match statusFromStage with
        | some s => some s
        | none => strTruthy payload.status
      if (statusUpd.isSome || prefixUpd.isSome) && updated.project_id ≠ "" then
        M.modify (fun st =>
          { st with projects :=
              (updateFirst (fun d => d.id = objectId updated.project_id)
                (fun d =>
                  { d with
                    status := statusUpd.getD d.status,
                    segment_assets_prefix :=
                      (if prefixUpd.isSome then prefixUpd
                       else d.segment_assets_prefix) })
                st.projects) })
      else pure ()
      pure updated

/-- Embeds `mark_job_failed` from `src/app/api/jobs/service.py`. -/
def mark_job_failed (job_id : String) (error : String)
    (message : Option String := none) : M JobDoc :=
  update_job_status job_id
    { status := "failed", error := some error, result_key := none,
      message := message } message

/-- Arguments of `create_job` (`JobCreate`); the pydantic model lives in the
absent `app/api/jobs/models.py`, its fields are taken from the construction
sites in `service.py`. -/
structure JobCreateArgs where
  project_id : String
  input_key : Option String := none
  callback_url : String
  task : Option String := none
  task_payload : List (String × PyVal) := []
  target_lang : Option String := none
  source_lang : Option String := none

/-- Embeds `create_job` from `src/app/api/jobs/service.py`: insert a fresh
document with status `queued` and a one-entry history. -/
def create_job (payload : JobCreateArgs) (job_oid : Option String := none) :
    M JobDoc := do
  let oid ← match job_oid with
    | some o => pure o
    | none => M.freshId
  let doc : JobDoc :=
    { id := oid, project_id := payload.project_id,
      input_key := payload.input_key, callback_url := payload.callback_url,
      status := "queued", result_key := none, error := none,
      history := [{ status := "queued", message := some "job created" }],
      task := some (match strTruthy payload.task with
        | some t => t
        | none => "full_pipeline"),
      task_payload := payload.task_payload,
      target_lang := payload.target_lang, source_lang := payload.source_lang }
  M.modify (fun st => { st with jobs := st.jobs ++ [doc] })
  pure doc

/-- Embeds `_build_job_message` from `src/app/api/jobs/service.py`: the
common envelope fields, the optional `input_key`/`source_lang`/`target_lang`,
and the task payload flattened in at the top level. -/
def _build_job_message (job : JobDoc) : List (String × PyVal) :=
  let task := match strTruthy job.task with
    | some t => t
    | none => "full_pipeline"
  let message : List (String × PyVal) :=
    [("task", .pstr task), ("job_id", .pstr job.id),
     ("project_id", .pstr job.project_id),
     ("callback_url", .pstr job.callback_url)]
  let message := match strTruthy job.input_key with
    | some k => message ++ [("input_key", PyVal.pstr k)]
    | none => message
  let message := match strTruthy job.source_lang with
    | some k => message ++ [("source_lang", PyVal.pstr k)]
    | none => message
  let message := match strTruthy job.target_lang with
    | some k => message ++ [("target_lang", PyVal.pstr k)]
    | none => message
  let payload := job.task_payload
  if task = "segment_tts" then
    if !payload.isEmpty then dictUpdate message payload else message
  else
    if !payload.isEmpty then dictUpdate message payload else message

/-- The environment-derived queue configuration read by
`src/app/api/jobs/service.py` at import time. -/
structure SqsConfig where
  jobQueueUrl : Option String := none
  appEnvDev : Bool := false
  jobQueueFifo : Bool := false
  messageGroupId : Option String := none
  callbackBase : Option String := none

/-- Embeds `_resolve_callback_base` from `src/app/api/jobs/service.py`. -/
def _resolve_callback_base (cfg : SqsConfig) : Except PyErr String :=
  match strTruthy cfg.callbackBase with
  | some b => .ok b
  | none =>
    if cfg.appEnvDev then .ok "http://localhost:8000"
    else .error (.httpError 500)

/-- Embeds `enqueue_job` from `src/app/api/jobs/service.py`: with no queue
URL configured the call silently skips in dev environments and raises a 500
`HTTPException` otherwise; with a URL, the envelope is built, FIFO queues get
`MessageGroupId` from the `JOB_QUEUE_MESSAGE_GROUP_ID` override or the job's
project id and `MessageDeduplicationId` from the job id, and a failing
`send_message` raises `SqsPublishError`. Returns the published message. -/
def enqueue_job (cfg : SqsConfig) (env : Env) (job : JobDoc)
    (voice_config : Option PyVal := none) : Except PyErr (Option SqsMessage) :=
  match strTruthy cfg.jobQueueUrl with
  | none => if cfg.appEnvDev then .ok none else .error (.httpError 500)
  | some _ =>
    let message_payload := _build_job_message job
    let message_payload := match voice_config with
      | some v => dictSet message_payload "voice_config" v
      | none => message_payload
    let msg : SqsMessage :=
      if cfg.jobQueueFifo then
        { body := message_payload,
          messageGroupId := some (match strTruthy cfg.messageGroupId with
            | some g => g
            | none => job.project_id),
          messageDeduplicationId := some job.id }
      else { body := message_payload }
    match env.sqsSend msg with
    | .ok _ => .ok (some msg)
    | .error _ => .error .sqsPublishError

/-- The dicts collected into `jobs_created` by `start_jobs_for_targets`. -/
structure JobCreatedInfo where
  project_id : String
  job_id : String
  target_lang : String
  status : String
deriving DecidableEq, Repr

/-- The `ProjectPublic` fields `start_jobs_for_targets` reads. -/
structure ProjectPublicM where
  project_id : String
  video_source : Option String := none
  source_language : Option String := none

/-- Python `s.rstrip(slash)` used on the callback base. -/
def rstripSlash (s : String) : String :=
  String.mk ((s.toList.reverse.dropWhile (fun c => c = '/')).reverse)

/-- The per-language loop of `start_jobs_for_targets`: create one Job and
enqueue it inside `try/except`; on failure mark only that Job failed (the
`str(exc)` message is collapsed to a fixed string) and continue with the
remaining languages. -/
def sjft_loop (cfg : SqsConfig) (env : Env) (callback_base : String)
    (voice_config : Option PyVal) (project : ProjectPublicM) :
    List String → List JobCreatedInfo → M (List JobCreatedInfo)
  | [], jobs_created => pure jobs_created
  | target_lang :: rest, jobs_created => do
    let job_oid ← M.freshId
    let callback_url :=
      rstripSlash callback_base ++ "/api/jobs/" ++ job_oid ++ "/status"
    let jobs_created' ← M.attempt
      (do
        let job ← create_job
          { project_id := project.project_id,
            input_key := project.video_source,
            callback_url := callback_url,
            target_lang := some target_lang,
            source_lang := project.source_language } (some job_oid)
        match enqueue_job cfg env job voice_config with
        | .error e => M.throw e
        | .ok _ =>
          pure (jobs_created ++
            [{ project_id := project.project_id, job_id := job.id,
               target_lang := target_lang, status := job.status }]))
      (do
        let _ ← mark_job_failed job_oid "sqs_publish_failed"
          (some "enqueue failed")
        pure jobs_created)
    sjft_loop cfg env callback_base voice_config project rest jobs_created'

/-- Embeds `start_jobs_for_targets` from `src/app/api/jobs/service.py`:
resolve the callback base, load the project's voice configuration (guarded),
run the per-language loop, and raise 503 if and only if no job was created
and enqueued successfully. -/
def start_jobs_for_targets (cfg : SqsConfig) (env : Env)
    (project : ProjectPublicM) (target_languages : List String) :
    M (List JobCreatedInfo) := do
  match _resolve_callback_base cfg with
  | .error e => M.throw e
  | .ok callback_base => do
    let st ← M.get
    let voice_config :=
      match st.projects.find? (fun d => d.id = objectId project.project_id) with
      | some d => d.voice_config
      | none => none
    let jobs_created ←
      sjft_loop cfg env callback_base voice_config project target_languages []
    if jobs_created.isEmpty then M.throw (.httpError 503)
    else pure jobs_created

/-- The `asr_completed` side effect of `set_job_status`
(`src/app/api/jobs/routes.py`): persist the extracted audio/vocals/background
object keys onto the Project record, only the keys present, inside
`try/except`. -/
def asrCompletedBlock (project_id : String) (md : Metadata) : M Unit := do
  let audio_key := strTruthy md.audio_key
  let vocals_key := strTruthy md.vocals_key
  let background_key := strTruthy md.background_key
  if audio_key.isSome || vocals_key.isSome || background_key.isSome then
    M.attempt
      (do
        let _ ← ProjectService.update_project
          { project_id := project_id, audio_source := audio_key,
            vocal_source := vocals_key,
            background_audio_source := background_key }
        pure ())
      (pure ())
  else pure ()

/-- The `tts_completed` side effect of `set_job_status`: when the callback
carries truthy `speaker_voices` and a language was resolved, write
`default_speaker_voices = (language_code, speaker_voices)` onto the Project
via `update_project` (a whole-field `$set`), inside `try/except`. -/
def ttsCompletedBlock (project_id : String) (language_code : Option String)
    (md : Metadata) : M Unit := do
  match listTruthy md.speaker_voices, strTruthy language_code with
  | some speaker_voices, some lc =>
    M.attempt
      (do
        let _ ← ProjectService.update_project
          { project_id := project_id,
            default_speaker_voices := some [(lc, speaker_voices)] }
        pure ())
      (pure ())
  | _, _ => pure ()

/-- The `segment_tts_completed` side effect of `set_job_status`: resolve the
segment id (explicit `metadata.segment_id`, else `segments[0].index` lookup),
validate it against `project_segments`, patch the matching translation's
audio URL for the first result carrying an `audio_key` (the
`update_translation` call comes from the absent
`app/api/segment/service.py`; modelled from the spec as patching the
`segment_audio_url` of the translation with that id), then probe the audio
duration and publish an `audio-completed` event; the whole block is inside
`try/except`, the duration probe inside a nested one. -/
def segmentTtsCompletedBlock (env : Env) (project_id : String)
    (language_code : Option String) (md : Metadata) : M Unit := do
  match listTruthy md.segments, strTruthy language_code with
  | some segments_result, some lc =>
    M.attempt
      (do
        let fromMeta := strTruthy md.segment_id
        let segment_id ← match fromMeta with
          | some sid => pure (some sid)
          | none =>
            match segments_result with
            | [] => pure none
            | seg_result :: _ =>
              match seg_result.index with
              | none => pure none
              | some segment_index => do
                let st ← M.get
                match st.project_segments.find?
                    (fun d => d.project_id = objectId project_id &&
                              d.segment_index = segment_index) with
                | some doc => pure (some doc.id)
                | none => pure none
        match segment_id with
        | none => pure ()
        | some sid => do
          let st ← M.get
          let validated : Option String :=
            match st.project_segments.find? (fun d => d.id = objectId sid) with
            | none => none
            | some _ => some sid
          match validated with
          | none => pure ()
          | some sid => do
            match segments_result.find?
                (fun s => (strTruthy s.audio_key).isSome) with
            | none => pure ()
            | some seg_result =>
              match strTruthy seg_result.audio_key with
              | none => pure ()
              | some audio_key => do
                let st ← M.get
                match st.segment_translations.find?
                    (fun d => d.segment_id = sid && d.language_code = lc) with
                | none => pure ()
                | some translation_doc => do
                  let translation_id := translation_doc.id
                  let audio_url := audio_key
                  M.modify (fun st =>
                    { st with segment_translations :=
                        (updateFirst (fun d => d.id = translation_id)
                          (fun d => { d with segment_audio_url := some audio_url })
                          st.segment_translations) })
                  M.attempt
                    (match env.audioDuration audio_key with
                     | .error _ => M.throw .valueError
                     | .ok (some audio_duration) =>
                       dispatch_audio_completed_routes project_id lc sid
                         audio_key audio_duration
                     | .ok none => pure ())
                    (pure ()))
      (pure ())
  | _, _ => pure ()

/-- The `done` speaker-voice side effect of `set_job_status`: when the
callback carries trailing `speaker_voices` (or `speaker_refs`) and a language
was resolved, merge them into the existing `default_speaker_voices` map read
back from the project document, preserving other languages' entries, inside
`try/except`. -/
def doneSpeakerVoicesBlock (project_id : String)
    (language_code : Option String) (md : Metadata) : M Unit := do
  match strTruthy language_code with
  | none => pure ()
  | some lc =>
    let speaker_voices :=
      match listTruthy md.speaker_voices with
      | some sv => some sv
      | none => listTruthy md.speaker_refs
    match speaker_voices with
    | none => pure ()
    | some sv =>
      M.attempt
        (do
          let st ← M.get
          let existing :=
            match st.projects.find? (fun d => d.id = objectId project_id) with
            | some project_doc => project_doc.default_speaker_voices
            | none => []
          let updated := dictSet existing lc sv
          let _ ← ProjectService.update_project
            { project_id := project_id,
              default_speaker_voices := some updated }
          pure ())
        (pure ())

/-- The `if/elif` stage chain of `set_job_status`: runs the stage's side
effects and yields the `ProjectTargetUpdate` (status, progress) pair, `none`
for stage names outside the table. -/
def stageDispatch (env : Env) (now : Nat) (project_id : String)
    (language_code : Option String) (md : Metadata) (result : JobDoc)
    (stage : String) : M (Option (TargetStatus × Int)) := do
  if stage = "starting" then
    pure (some (.processing, 1))
  else if stage = "asr_started" then
    pure (some (.processing, 10))
  else if stage = "asr_completed" then do
    asrCompletedBlock project_id md
    pure (some (.processing, 20))
  else if stage = "translation_started" then
    pure (some (.processing, 21))
  else if stage = "translation_completed" then
    pure (some (.processing, 35))
  else if stage = "tts_started" then
    pure (some (.processing, 36))
  else if stage = "tts_completed" then do
    ttsCompletedBlock project_id language_code md
    pure (some (.completed, 70))
  else if stage = "segment_tts_completed" then do
    segmentTtsCompletedBlock env project_id language_code md
    pure (some (.completed, 70))
  else if stage = "mux_started" then
    pure (some (.processing, 71))
  else if stage = "done" then do
    doneSpeakerVoicesBlock project_id language_code md
    let final_result_key := strOr md.result_key result.result_key
    process_md_completion env now project_id md final_result_key language_code
    pure (some (.completed, 100))
  else if stage = "failed" then
    pure (some (.failed, 0))
  else
    pure none

/-- Embeds `set_job_status`, the worker-callback endpoint
`POST /jobs/job_id/status` of `src/app/api/jobs/routes.py`: the primary Job
write first, then (when the metadata carries a `stage` key) language
resolution with the project-target fallback, the stage dispatch, and the
guarded ProjectTarget update plus `target_update` event. The voice-sample
update step touches only the voice-sample and user collections, which are
outside the modelled state, and is entirely inside `try/except`; it is
elided. -/
def set_job_status (env : Env) (now : Nat) (job_id : String)
    (payload : JobUpdateStatus) : M JobDoc := do
  let result ← update_job_status job_id payload
  let metadata := payload.metadata
  match metadata with
  | none => pure result
  | some md =>
    match md.stage with
    | none => pure result
    | some stage => do
      let project_id := result.project_id
      let language_code := strOr md.target_lang md.language_code
      let language_independent_stages := ["downloaded", "stt_completed"]
      let language_code ←
        if language_code.isNone &&
            !(language_independent_stages.contains stage) then
          M.attempt
            (do
              let targets ← ProjectService.get_targets_by_project project_id
              match targets with
              | [] => pure language_code
              | t :: _ => pure (strTruthy (some (extract_language_code t))))
            (pure language_code)
        else pure language_code
      if language_code.isNone &&
          !(language_independent_stages.contains stage) then
        pure result
      else do
        let target_update ←
          stageDispatch env now project_id language_code md result stage
        match target_update with
        | none => pure result
        | some tu => do
          M.attempt
            (match language_code with
             | some lc => do
               let _ ← ProjectService.update_targets_by_project_and_language
                 project_id lc (some tu.1) (some tu.2)
               dispatch_target_update project_id lc tu.1 tu.2
             | none => pure ())
            (pure ())
          pure result

/-- A subscriber registry of one SSE channel scope: channel key to the set of
live subscriber queues (queues identified by numbers, the set modelled as a
duplicate-free list); `none` means the key is absent from the dict. -/
def Registry : Type := String → Option (List Nat)

/-- The empty `defaultdict(set)` both routers start from. -/
def emptyRegistry : Registry := fun _ => none

/-- Python `set.add` on the subscriber set. -/
def subAdd (q : Nat) (l : List Nat) : List Nat :=
  if l.contains q then l else l ++ [q]

/-- The subscribe action of `pipeline_events`
(`src/app/api/pipeline/router.py`): `project_channels[project_id].add(queue)`
on a `defaultdict(set)` (the entry is created when absent). -/
def pipeline_subscribe (project_id : String) (q : Nat) (reg : Registry) :
    Registry :=
  fun k => if k = project_id then some (subAdd q ((reg project_id).getD []))
           else reg k

/-- The disconnect action of `pipeline_events` (the generator's `finally`):
`project_channels[project_id].discard(queue)` — the queue is removed but the
registry entry is kept (and even created, through the `defaultdict`, when it
was absent). -/
def pipeline_disconnect (project_id : String) (q : Nat) (reg : Registry) :
    Registry :=
  fun k => if k = project_id then
             some (((reg project_id).getD []).filter (fun x => x ≠ q))
           else reg k

/-- The subscribe action of `audio_events` (`src/app/api/audio/router.py`)
on the channel keyed by projectId and language. -/
def audio_subscribe (channel_key : String) (q : Nat) (reg : Registry) :
    Registry :=
  fun k => if k = channel_key then some (subAdd q ((reg channel_key).getD []))
           else reg k

/-- The disconnect action of `audio_events` (the generator's `finally`):
discard the queue, then `del audio_channels[channel_key]` when the subscriber
set became empty. -/
def audio_disconnect (channel_key : String) (q : Nat) (reg : Registry) :
    Registry :=
  fun k => if k = channel_key then
             (let s := ((reg channel_key).getD []).filter (fun x => x ≠ q)
              if s.isEmpty then none else some s)
           else reg k

/-- Decidable equality on `Except`, so concrete runs can be settled by
`decide`. -/
instance instDecEqExcept {e a : Type} [DecidableEq e] [DecidableEq a] :
    DecidableEq (Except e a) := fun x y =>
  match x, y with
  | .ok u, .ok v =>
    if h : u = v then isTrue (congrArg Except.ok h)
    else isFalse (fun hc => h (Except.ok.inj hc))
  | .error u, .error v =>
    if h : u = v then isTrue (congrArg Except.error h)
    else isFalse (fun hc => h (Except.error.inj hc))
  | .ok _, .error _ => isFalse (fun hc => Except.noConfusion hc)
  | .error _, .ok _ => isFalse (fun hc => Except.noConfusion hc)

/-- The empty world: no documents, no events, no ids handed out. -/
def baseSt : St :=
  { jobs := [], projects := [], project_segments := [],
    segment_translations := [], project_targets := [], assets := [],
    targetEvents := [], audioEvents := [], freshCtr := 0 }

/-- An inert collaborator environment for concrete runs: the S3 fetch fails,
the duration probe finds nothing, the queue accepts everything. -/
def testEnv : Env :=
  { downloadParseMetadata := fun _ => .error (),
    audioDuration := fun _ => .ok none,
    sqsSend := fun _ => .ok () }

/-- A job document with the given id and project and default remaining
fields, for concrete states. -/
def mkJob (id project_id : String) : JobDoc :=
  { id := id, project_id := project_id, input_key := none,
    callback_url := "cb", status := "queued", result_key := none,
    error := none, history := [{ status := "queued", message := some "job created" }],
    task := some "full_pipeline", task_payload := [], target_lang := none,
    source_lang := none }

/-- A pending project target, for concrete states. -/
def mkTarget (project_id language_code : String) : TargetDoc :=
  { project_id := project_id, language_code := language_code,
    status := .pending, progress := 0 }

/-- A project document with the given id and voice map and default remaining
fields, for concrete states. -/
def mkProject (id : String)
    (voices : List (String × SpeakerVoices) := []) : ProjectDoc :=
  { id := id, status := "processing", audio_source := none,
    vocal_source := none, background_audio_source := none,
    default_speaker_voices := voices, segment_assets_prefix := none,
    voice_config := none }

/-- Restates the spec's stage table (sections 4.1 and 4.3 of the spec), to be
compared against the behaviour of the embedded `set_job_status`. -/
def stageTable : List (String × (TargetStatus × Int)) :=
  [("starting", (.processing, 1)),
   ("asr_started", (.processing, 10)),
   ("asr_completed", (.processing, 20)),
   ("translation_started", (.processing, 21)),
   ("translation_completed", (.processing, 35)),
   ("tts_started", (.processing, 36)),
   ("tts_completed", (.completed, 70)),
   ("segment_tts_completed", (.completed, 70)),
   ("mux_started", (.processing, 71)),
   ("done", (.completed, 100)),
   ("failed", (.failed, 0))]

/-- The spec's table as a lookup. -/
def lookupStage (stage : String) : Option (TargetStatus × Int) :=
  (stageTable.find? (fun p => p.1 = stage)).map (·.2)

/-- The first `project_targets` document for a (project, language) pair — the
one Mongo `find_one`/`update_one` act on. -/
def targetFor (st : St) (project_id language_code : String) :
    Option TargetDoc :=
  st.project_targets.find?
    (fun t => t.project_id = project_id && t.language_code = language_code)

/-- Success test on `Except`. -/
def exceptOk {ε α : Type} : Except ε α → Bool
  | .ok _ => true
  | .error _ => false

/-- The unguarded casts of `check_and_create_segments` succeed on this input
segment (its `start`/`end` values survive `float()` and its `seg_idx`
survives `int()`). -/
def segCastOk (s : SegInput) : Bool :=
  exceptOk (pyFloat (s.seg_start.getD (.pint 0))) &&
  exceptOk (pyFloat (s.seg_end.getD (.pint 0))) &&
  (match s.seg_idx with
   | some v => exceptOk (pyInt v)
   | none => true)

/-- Every segment of the list is cast-safe. -/
def segsWF (l : List SegInput) : Bool := l.all segCastOk

/-- The inline `metadata.segments` list is cast-safe. This is the only
well-formedness `process_md_completion` needs in order not to raise: the
S3-metadata branch sits inside a `try/except` whose handler falls back to the
inline segments, so only the inline reconciliation can propagate a cast
error. -/
def metadataSegmentsWF (m : Metadata) : Bool :=
  segsWF (m.segments.getD [])

/-- Number of `segment_translations` documents carrying a given
`(segment_id, language_code)` key. -/
def transCount (st : St) (segment_id language_code : String) : Nat :=
  (st.segment_translations.filter
    (fun d => d.segment_id = segment_id &&
              d.language_code = language_code)).length

/-- The `target_lang` field of a published queue message. -/
def msgTargetLang (msg : SqsMessage) : Option PyVal :=
  dictLookup msg.body "target_lang"

/-- The send outcome a message receives under a per-language availability map
(messages without a string `target_lang` always succeed). -/
def msgLangOk (sendOk : String → Bool) (msg : SqsMessage) : Bool :=
  match msgTargetLang msg with
  | some (.pstr l) => sendOk l
  | _ => true

/-- The environment's SQS send is decided by a per-language availability
map. -/
def sqsDecidedBy (env : Env) (sendOk : String → Bool) : Prop :=
  ∀ msg, env.sqsSend msg = (if msgLangOk sendOk msg then .ok () else .error ())

/-- Every job id in the list was generated from a counter value below `ctr`
(the freshness invariant of the id generator). -/
def jobsIdsBelow (jobs : List JobDoc) (ctr : Nat) : Prop :=
  ∀ j ∈ jobs, ∃ k, k < ctr ∧ j.id = oidOf k

/-- The computation never modifies the state (a pure read). -/
def Reads {α : Type} (m : M α) : Prop := ∀ st, (m st).2 = st

/-- The computation never raises. -/
def NoRaise {α : Type} (m : M α) : Prop := ∀ st, ∃ a, (m st).1 = .ok a

/-- The computation leaves the `project_targets` collection untouched. -/
def PT {α : Type} (m : M α) : Prop :=
  ∀ st, ((m st).2).project_targets = st.project_targets

/-- The computation leaves the `projects` collection untouched. -/
def PP {α : Type} (m : M α) : Prop :=
  ∀ st, ((m st).2).projects = st.projects

/-- The computation leaves the `jobs` collection untouched. -/
def PJ {α : Type} (m : M α) : Prop :=
  ∀ st, ((m st).2).jobs = st.jobs

/-- Number of `segment_translations` documents carrying a given
`(segment_id, language_code)` upsert key. -/
def transKeyCount (l : List TransDoc) (sid lc : String) : Nat :=
  l.countP (fun d => d.segment_id = sid && d.language_code = lc)

/-- Every `(segment_id, language_code)` pair occurs at most once. -/
def transNoDup (l : List TransDoc) : Prop :=
  ∀ sid lc, transKeyCount l sid lc ≤ 1

/-- The documents `insertSegs` appends for a `segments_to_create` list when
the fresh-id counter starts at `ctr` (its closed form). -/
def insertedDocs (now : Nat) : Nat → List SegCreate → List SegDoc
  | _, [] => []
  | ctr, d :: ds =>
    { id := oidOf ctr, project_id := d.project_id,
      speaker_tag := d.speaker_tag, seg_start := d.seg_start,
      seg_end := d.seg_end, source_text := d.source_text,
      segment_index := d.segment_index, is_verified := false,
      created_at := now } :: insertedDocs now (ctr + 1) ds

/-- The state after the bulk insert of `check_and_create_segments`. -/
def ccsInsertState (now : Nat) (st : St) (scs : List SegCreate) : St :=
  { st with
    project_segments := st.project_segments ++ insertedDocs now st.freshCtr scs,
    freshCtr := st.freshCtr + scs.length }

/-- The document `create_job` inserts for a payload and a pre-made id. -/
def createdDoc (payload : JobCreateArgs) (oid : String) : JobDoc :=
  { id := oid, project_id := payload.project_id,
    input_key := payload.input_key, callback_url := payload.callback_url,
    status := "queued", result_key := none, error := none,
    history := [{ status := "queued", message := some "job created" }],
    task := some (match strTruthy payload.task with
      | some t => t
      | none => "full_pipeline"),
    task_payload := payload.task_payload,
    target_lang := payload.target_lang, source_lang := payload.source_lang }

/-- The Job document `start_jobs_for_targets` creates for one target
language when the fresh-id counter stands at `ctr`. -/
def sjftCreatedDoc (project : ProjectPublicM) (cb : String) (ctr : Nat)
    (l : String) : JobDoc :=
  { id := oidOf ctr, project_id := project.project_id,
    input_key := project.video_source,
    callback_url := rstripSlash cb ++ "/api/jobs/" ++ oidOf ctr ++ "/status",
    status := "queued", result_key := none, error := none,
    history := [{ status := "queued", message := some "job created" }],
    task := some "full_pipeline", task_payload := [],
    target_lang := some l, source_lang := project.source_language }

/-- The same document after `mark_job_failed` ran on it. -/
def sjftFailedDoc (d : JobDoc) : JobDoc :=
  applyJobStatusUpdate
    { status := "failed", error := some "sqs_publish_failed",
      result_key := none, message := some "enqueue failed" }
    (some "enqueue failed") d

/-- Closed form of the jobs the fan-out loop appends: one per language,
failed when the language's enqueue fails. -/
def sjftJobs (project : ProjectPublicM) (cb : String)
    (sendOk : String → Bool) : Nat → List String → List JobDoc
  | _, [] => []
  | ctr, l :: ls =>
    (if sendOk l then sjftCreatedDoc project cb ctr l
     else sjftFailedDoc (sjftCreatedDoc project cb ctr l)) ::
      sjftJobs project cb sendOk (ctr + 1) ls

/-- Closed form of the `jobs_created` summaries the fan-out loop returns:
one per successfully enqueued language. -/
def sjftInfos (project : ProjectPublicM) (sendOk : String → Bool) :
    Nat → List String → List JobCreatedInfo
  | _, [] => []
  | ctr, l :: ls =>
    (if sendOk l then
      [{ project_id := project.project_id, job_id := oidOf ctr,
         target_lang := l, status := "queued" }]
     else []) ++ sjftInfos project sendOk (ctr + 1) ls

/-! Execution lemmas for the effect monad and basic list facts. -/

@[simp] theorem bind_run {α β : Type} (m : M α) (f : α → M β) (st : St) :
    (m >>= f) st = (match m st with
      | (.ok a, st') => f a st'
      | (.error e, st') => (.error e, st')) := rfl

@[simp] theorem pure_run {α : Type} (a : α) (st : St) :
    (pure a : M α) st = (.ok a, st) := rfl

@[simp] theorem mpure_run {α : Type} (a : α) (st : St) :
    (M.pure a : M α) st = (.ok a, st) := rfl

@[simp] theorem throw_run {α : Type} (e : PyErr) (st : St) :
    (M.throw e : M α) st = (.error e, st) := rfl

@[simp] theorem get_run (st : St) : M.get st = (.ok st, st) := rfl

@[simp] theorem modify_run (f : St → St) (st : St) :
    M.modify f st = (.ok (), f st) := rfl

@[simp] theorem attempt_run {α : Type} (m h : M α) (st : St) :
    M.attempt m h st = (match m st with
      | (.ok a, st') => (.ok a, st')
      | (.error _, st') => h st') := rfl

@[simp] theorem freshId_run (st : St) :
    M.freshId st = (.ok (oidOf st.freshCtr),
      { st with freshCtr := st.freshCtr + 1 }) := rfl

theorem oidOf_injective : Function.Injective oidOf := by
  intro a b h
  have hlen : (oidOf a).length = (oidOf b).length := by rw [h]
  simpa [oidOf, String.length_append, String.length] using hlen

theorem find?_updateFirst_self {α : Type} (p : α → Bool) (f : α → α)
    (l : List α) (x : α) (hx : l.find? p = some x) (hf : p (f x) = true) :
    (updateFirst p f l).find? p = some (f x) := by
  induction l with
  | nil => simp at hx
  | cons y ys ih =>
    by_cases hy : p y = true
    · rw [List.find?_cons_of_pos _ hy] at hx
      injection hx with hx
      subst hx
      simp [updateFirst, hy, List.find?_cons_of_pos _ hf]
    · have hy' : p y = false := by simpa using hy
      rw [List.find?_cons_of_neg _ (by simp [hy'])] at hx
      simp [updateFirst, hy', List.find?_cons_of_neg, ih hx]

theorem updateFirst_of_find?_none {α : Type} (p : α → Bool) (f : α → α)
    (l : List α) (h : l.find? p = none) : updateFirst p f l = l := by
  induction l with
  | nil => rfl
  | cons y ys ih =>
    rw [List.find?_cons] at h
    split at h
    · exact absurd h (by simp)
    · next hy =>
      simp only [updateFirst]
      rw [if_neg (by simp [hy]), ih h]

theorem Reads_bind {α β : Type} {m : M α} {f : α → M β}
    (hm : Reads m) (hf : ∀ a, Reads (f a)) : Reads (m >>= f) := by
  intro st
  simp only [bind_run]
  have h1 := hm st
  split
  · next a st' heq =>
    have hst : st' = st := by rw [heq] at h1; exact h1
    exact hst ▸ hf a st'
  · next e st' heq =>
    rw [heq] at h1; exact h1

theorem Reads_pure {α : Type} (a : α) : Reads (pure a : M α) := fun _ => rfl

theorem Reads_get : Reads M.get := fun _ => rfl

theorem Reads_throw {α : Type} (e : PyErr) : Reads (M.throw e : M α) :=
  fun _ => rfl

theorem Reads_attempt {α : Type} {m h : M α} (hm : Reads m) (hh : Reads h) :
    Reads (M.attempt m h) := by
  intro st
  simp only [attempt_run]
  have h1 := hm st
  split
  · next a st' heq => rw [heq] at h1; exact h1
  · next e st' heq =>
    have hst : st' = st := by rw [heq] at h1; exact h1
    exact hst ▸ hh st'

theorem PT_of_Reads {α : Type} {m : M α} (h : Reads m) : PT m :=
  fun st => by rw [h st]

theorem PP_of_Reads {α : Type} {m : M α} (h : Reads m) : PP m :=
  fun st => by rw [h st]

theorem PJ_of_Reads {α : Type} {m : M α} (h : Reads m) : PJ m :=
  fun st => by rw [h st]

theorem PT_bind {α β : Type} {m : M α} {f : α → M β}
    (hm : PT m) (hf : ∀ a, PT (f a)) : PT (m >>= f) := by
  intro st
  simp only [bind_run]
  have h1 := hm st
  split
  · next a st' heq =>
    rw [heq] at h1
    rw [← h1]
    exact hf a st'
  · next e st' heq => rw [heq] at h1; exact h1

theorem PT_pure {α : Type} (a : α) : PT (pure a : M α) := fun _ => rfl

theorem PT_throw {α : Type} (e : PyErr) : PT (M.throw e : M α) := fun _ => rfl

theorem PT_modify {f : St → St}
    (hf : ∀ st, (f st).project_targets = st.project_targets) :
    PT (M.modify f) := fun st => hf st

theorem PT_attempt {α : Type} {m h : M α} (hm : PT m) (hh : PT h) :
    PT (M.attempt m h) := by
  intro st
  simp only [attempt_run]
  have h1 := hm st
  split
  · next a st' heq => rw [heq] at h1; exact h1
  · next e st' heq =>
    rw [heq] at h1
    rw [← h1]
    exact hh st'

theorem PP_bind {α β : Type} {m : M α} {f : α → M β}
    (hm : PP m) (hf : ∀ a, PP (f a)) : PP (m >>= f) := by
  intro st
  simp only [bind_run]
  have h1 := hm st
  split
  · next a st' heq =>
    rw [heq] at h1
    rw [← h1]
    exact hf a st'
  · next e st' heq => rw [heq] at h1; exact h1

theorem PP_pure {α : Type} (a : α) : PP (pure a : M α) := fun _ => rfl

theorem PP_throw {α : Type} (e : PyErr) : PP (M.throw e : M α) := fun _ => rfl

theorem PP_modify {f : St → St}
    (hf : ∀ st, (f st).projects = st.projects) :
    PP (M.modify f) := fun st => hf st

theorem PP_attempt {α : Type} {m h : M α} (hm : PP m) (hh : PP h) :
    PP (M.attempt m h) := by
  intro st
  simp only [attempt_run]
  have h1 := hm st
  split
  · next a st' heq => rw [heq] at h1; exact h1
  · next e st' heq =>
    rw [heq] at h1
    rw [← h1]
    exact hh st'

theorem PJ_bind {α β : Type} {m : M α} {f : α → M β}
    (hm : PJ m) (hf : ∀ a, PJ (f a)) : PJ (m >>= f) := by
  intro st
  simp only [bind_run]
  have h1 := hm st
  split
  · next a st' heq =>
    rw [heq] at h1
    rw [← h1]
    exact hf a st'
  · next e st' heq => rw [heq] at h1; exact h1

theorem PJ_pure {α : Type} (a : α) : PJ (pure a : M α) := fun _ => rfl

theorem PJ_throw {α : Type} (e : PyErr) : PJ (M.throw e : M α) := fun _ => rfl

theorem PJ_modify {f : St → St}
    (hf : ∀ st, (f st).jobs = st.jobs) :
    PJ (M.modify f) := fun st => hf st

theorem PJ_attempt {α : Type} {m h : M α} (hm : PJ m) (hh : PJ h) :
    PJ (M.attempt m h) := by
  intro st
  simp only [attempt_run]
  have h1 := hm st
  split
  · next a st' heq => rw [heq] at h1; exact h1
  · next e st' heq =>
    rw [heq] at h1
    rw [← h1]
    exact hh st'

/-- C8 counterexample: on the per-project pipeline channel, a subscriber that
joins and then disconnects leaves the registry entry behind as an empty set —
the entry is not deleted, contradicting the claim that both channel scopes
garbage-collect empty entries. -/
theorem C8_counterexample :
    pipeline_disconnect "p1" 0 (pipeline_subscribe "p1" 0 emptyRegistry) "p1"
      = some [] ∧
    pipeline_disconnect "p1" 0 (pipeline_subscribe "p1" 0 emptyRegistry) "p1"
      ≠ none := by
  exact ⟨by decide, by decide⟩

/-- C8 (amended): on disconnect both scopes remove the subscriber's queue
from the key's subscriber set, and the audio channel deletes the registry
entry once the set is empty; the project (pipeline) channel, however, always
keeps the entry, as the (possibly empty) filtered set. -/
theorem C8_channel_teardown (k : String) (q : Nat) (reg : Registry) :
    (∀ l, audio_disconnect k q reg k = some l → q ∉ l) ∧
    (((reg k).getD []).filter (fun x => x ≠ q) = [] →
      audio_disconnect k q reg k = none) ∧
    (∀ l, pipeline_disconnect k q reg k = some l → q ∉ l) ∧
    pipeline_disconnect k q reg k =
      some (((reg k).getD []).filter (fun x => x ≠ q)) := by
  have hk : audio_disconnect k q reg k =
      (if (((reg k).getD []).filter (fun x => x ≠ q)).isEmpty then none
       else some (((reg k).getD []).filter (fun x => x ≠ q))) := by
    unfold audio_disconnect
    rw [if_pos (rfl : k = k)]
  have hp : pipeline_disconnect k q reg k =
      some (((reg k).getD []).filter (fun x => x ≠ q)) := by
    unfold pipeline_disconnect
    rw [if_pos (rfl : k = k)]
  refine ⟨?_, ?_, ?_, hp⟩
  · intro l h
    rw [hk] at h
    split at h
    · exact absurd h (by simp)
    · have hl := Option.some.inj h
      subst hl
      intro hq
      have hmem := List.of_mem_filter hq
      simp at hmem
  · intro hempty
    rw [hk, hempty]
    simp
  · intro l h
    rw [hp] at h
    have hl := Option.some.inj h
    subst hl
    intro hq
    have hmem := List.of_mem_filter hq
    simp at hmem

/-- C8 witness: a concrete audio-channel subscriber whose disconnect deletes
the now-empty registry entry. -/
theorem C8_channel_teardown_witness :
    audio_disconnect "p:en" 7 (audio_subscribe "p:en" 7 emptyRegistry) "p:en"
      = none :=
  (C8_channel_teardown "p:en" 7 (audio_subscribe "p:en" 7 emptyRegistry)).2.1
    (by decide)

/-- C9 counterexample: with the `JOB_QUEUE_MESSAGE_GROUP_ID` environment
override configured, the FIFO message's group id is the override, not the
job's project id; and with no queue URL configured outside dev, the failure
raises an `HTTPException`, not `SqsPublishError`. -/
theorem C9_counterexample :
    enqueue_job
        { jobQueueUrl := some "q", jobQueueFifo := true,
          messageGroupId := some "grp" }
        testEnv (mkJob "j1" "p1") none
      = .ok (some
        { body := [("task", .pstr "full_pipeline"), ("job_id", .pstr "j1"),
                   ("project_id", .pstr "p1"), ("callback_url", .pstr "cb")],
          messageGroupId := some "grp",
          messageDeduplicationId := some "j1" }) ∧
    "grp" ≠ (mkJob "j1" "p1").project_id ∧
    enqueue_job { jobQueueUrl := none, appEnvDev := false } testEnv
      (mkJob "j1" "p1") none = .error (.httpError 500) := by
  exact ⟨by decide, by decide, by decide⟩

/-- C9 (amended): when a queue URL is configured, every published FIFO
message carries `MessageGroupId` equal to the configured
`JOB_QUEUE_MESSAGE_GROUP_ID` override when present and truthy, else the
job's project id, and `MessageDeduplicationId` equal to the job id; every
failure of the publish raises exactly `SqsPublishError`; and the call never
silently skips publishing. -/
theorem C9_enqueue_amended (cfg : SqsConfig) (env : Env) (job : JobDoc)
    (vc : Option PyVal) (hurl : (strTruthy cfg.jobQueueUrl).isSome = true) :
    (∀ msg, enqueue_job cfg env job vc = .ok (some msg) →
      cfg.jobQueueFifo = true →
        msg.messageGroupId =
          some ((strTruthy cfg.messageGroupId).getD job.project_id) ∧
        msg.messageDeduplicationId = some job.id) ∧
    (∀ e, enqueue_job cfg env job vc = .error e → e = .sqsPublishError) ∧
    enqueue_job cfg env job vc ≠ .ok none := by
  match hu : strTruthy cfg.jobQueueUrl with
  | none => rw [hu] at hurl; simp at hurl
  | some u =>
    refine ⟨?_, ?_, ?_⟩
    · intro msg hmsg hfifo
      simp only [enqueue_job, hu, hfifo, if_pos] at hmsg
      split at hmsg
      · injection hmsg with hmsg
        injection hmsg with hmsg
        subst hmsg
        constructor
        · cases hg : strTruthy cfg.messageGroupId <;> simp [hg]
        · rfl
      · exact absurd hmsg (by simp)
    · intro e he
      simp only [enqueue_job, hu] at he
      split at he
      · exact absurd he (by simp)
      · injection he with he
        exact he.symm
    · intro hnone
      simp only [enqueue_job, hu] at hnone
      split at hnone
      · injection hnone with h
        exact absurd h (by simp)
      · exact absurd hnone (by simp)

/-- C9 witness: a concrete FIFO configuration without the group-id override,
where the enqueue publishes rather than silently skipping. -/
theorem C9_enqueue_witness :
    enqueue_job { jobQueueUrl := some "q", jobQueueFifo := true } testEnv
      (mkJob "j1" "p1") none ≠ .ok none :=
  (C9_enqueue_amended { jobQueueUrl := some "q", jobQueueFifo := true }
    testEnv (mkJob "j1" "p1") none (by decide)).2.2

/-- C5: segment identity resolution returns the same id by either path — the
explicit `metadata.segment_id`, or the `metadata.segments[0].index` lookup
against the stored `(project_id, segment_index)` pair — and a failed lookup
returns `none`; the function is total (never raises) and leaves the state
untouched. -/
theorem C5_segment_identity (st : St) (project_id sid : String) (n : Int)
    (doc : SegDoc)
    (hfind : st.project_segments.find?
      (fun d => d.project_id = objectId project_id &&
                d.segment_index = n) = some doc)
    (hid : doc.id = sid) (hsid : sid ≠ "") :
    (find_segment_id_from_metadata project_id { segment_id := some sid } st).1
      = .ok (some sid) ∧
    (find_segment_id_from_metadata project_id
      { segments := some [{ index := some n }] } st).1 = .ok (some sid) ∧
    (∀ m : Metadata, ∃ r : Option String,
      find_segment_id_from_metadata project_id m st = (.ok r, st)) ∧
    (∀ n' : Int, st.project_segments.find?
        (fun d => d.project_id = objectId project_id &&
                  d.segment_index = n') = none →
      (find_segment_id_from_metadata project_id
        { segments := some [{ index := some n' }] } st).1 = .ok none) := by
  refine ⟨?_, ?_, ?_, ?_⟩
  · simp [find_segment_id_from_metadata, strTruthy, hsid]
  · simp [find_segment_id_from_metadata, strTruthy, listTruthy, hfind, hid]
  · intro m
    unfold find_segment_id_from_metadata
    cases hsg : strTruthy m.segment_id with
    | some s => exact ⟨some s, by simp [hsg]⟩
    | none =>
      cases hls : listTruthy m.segments with
      | none => exact ⟨none, by simp [hsg, hls]⟩
      | some segs =>
        cases segs with
        | nil => exact ⟨none, by simp [hsg, hls]⟩
        | cons sr tl =>
          cases hix : sr.index with
          | none => exact ⟨none, by simp [hsg, hls, hix]⟩
          | some ix =>
            cases hf : st.project_segments.find?
                (fun d => d.project_id = objectId project_id &&
                          d.segment_index = ix) with
            | some d =>
              exact ⟨some d.id, by simp [hsg, hls, hix, hf]⟩
            | none => exact ⟨none, by simp [hsg, hls, hix, hf]⟩
  · intro n' hnone
    simp [find_segment_id_from_metadata, strTruthy, listTruthy, hnone]

/-- C5 witness: a concrete stored segment resolved through the index-lookup
fallback. -/
theorem C5_segment_identity_witness :
    (find_segment_id_from_metadata "p1"
      { segments := some [{ index := some 0 }] }
      { baseSt with project_segments :=
          [{ id := "s1", project_id := "p1", speaker_tag := "S0",
             seg_start := 0, seg_end := 1, source_text := "",
             segment_index := 0, is_verified := false, created_at := 0 }] }).1
      = .ok (some "s1") :=
  (C5_segment_identity
    { baseSt with project_segments :=
        [{ id := "s1", project_id := "p1", speaker_tag := "S0",
           seg_start := 0, seg_end := 1, source_text := "",
           segment_index := 0, is_verified := false, created_at := 0 }] }
    "p1" "s1" 0
    { id := "s1", project_id := "p1", speaker_tag := "S0",
      seg_start := 0, seg_end := 1, source_text := "",
      segment_index := 0, is_verified := false, created_at := 0 }
    (by decide) (by decide) (by decide)).2.1

theorem strTruthy_some_ne {o : Option String} {e : String}
    (h : strTruthy o = some e) : e ≠ "" := by
  cases o with
  | none => simp [strTruthy] at h
  | some s =>
    by_cases hs : s = ""
    · simp [strTruthy, hs] at h
    · simp [strTruthy, hs] at h
      subst h
      exact hs

theorem extract_error_message_ne (m : Metadata) :
    extract_error_message m "TTS generation failed" ≠ "" := by
  unfold extract_error_message
  cases he : strTruthy m.error with
  | some e => exact strTruthy_some_ne he
  | none => simp

/-- C7 counterexample: a worker callback with stage `segment_tts_failed`,
whose metadata resolves a segment id (it carries an explicit `segment_id` and
the segment exists), publishes no event at all on the audio channel — the
endpoint's stage dispatch has no `segment_tts_failed` branch. -/
theorem C7_counterexample :
    ((set_job_status testEnv 0 "j1"
        { status := "in_progress",
          metadata := some { stage := some "segment_tts_failed",
                             target_lang := some "en",
                             segment_id := some "s1",
                             error := some "boom" } }
        { baseSt with
          jobs := [mkJob "j1" "p1"],
          projects := [mkProject "p1"],
          project_targets := [mkTarget "p1" "en"],
          project_segments :=
            [{ id := "s1", project_id := "p1", speaker_tag := "S0",
               seg_start := 0, seg_end := 1, source_text := "",
               segment_index := 0, is_verified := false,
               created_at := 0 }] }).2).audioEvents = [] := by decide

/-- C7 (amended): the helper `process_segment_tts_failed` does publish, on the
(project, language) audio channel, an audio-failure event carrying the error
message extracted from `metadata.error` (or the default
`TTS generation failed`), whenever the metadata resolves a segment id — but
the callback endpoint `set_job_status` never invokes it, so a
`segment_tts_failed` callback publishes nothing. -/
theorem C7_segment_tts_failed_amended (st : St)
    (project_id language_code : String) (m : Metadata) (sid : String)
    (hres : find_segment_id_from_metadata project_id m st
      = (.ok (some sid), st)) :
    process_segment_tts_failed project_id language_code m st =
      (.ok (), { st with audioEvents :=
        st.audioEvents ++
          [(project_id ++ ":" ++ language_code,
            { event := "audio-failed", segmentId := sid,
              projectId := project_id, languageCode := language_code,
              status := some "failed", audioS3Key := none,
              audioDuration := none,
              error := some (extract_error_message m
                "TTS generation failed") })] }) := by
  unfold process_segment_tts_failed
  simp only [attempt_run, bind_run, hres]
  simp [dispatch_audio_completed_dispatcher, strTruthy,
    extract_error_message_ne m]

/-- C7 witness: a concrete resolvable metadata without an error message gets
the default failure message published. -/
theorem C7_amended_witness :
    process_segment_tts_failed "p1" "en" { segment_id := some "s9" } baseSt =
      (.ok (), { baseSt with audioEvents :=
        baseSt.audioEvents ++
          [("p1" ++ ":" ++ "en",
            { event := "audio-failed", segmentId := "s9", projectId := "p1",
              languageCode := "en", status := some "failed",
              audioS3Key := none, audioDuration := none,
              error := some (extract_error_message
                { segment_id := some "s9" } "TTS generation failed") })] }) :=
  C7_segment_tts_failed_amended baseSt "p1" "en" { segment_id := some "s9" }
    "s9" (by decide)

/-- C2: a `done` callback whose inline segment carries a malformed `seg_idx`
(`int("oops")` raises `ValueError`) shows the two halves of the claim: the
primary Job write and the project-status write have already happened — the
job is `done` with an extended history — but the reconciliation failure
propagates out of the handler (the run ends in an error, the ProjectTarget is
never updated), so the endpoint does not return the updated Job
representation. -/
theorem C2_side_effect_exception_escapes :
    set_job_status testEnv 0 "j1"
      { status := "done",
        metadata := some
          { stage := some "done", target_lang := some "en",
            segments := some
              [{ speaker := some "S0",
                 seg_start := some (.pint 0), seg_end := some (.pint 1),
                 prompt_text := some "hi",
                 seg_idx := some (.pstr "oops") }] } }
      { baseSt with
        jobs := [mkJob "j1" "p1"],
        projects := [mkProject "p1"],
        project_targets := [mkTarget "p1" "en"] } =
    (.error .valueError,
     { baseSt with
       jobs := [{ mkJob "j1" "p1" with
                  status := "done",
                  history :=
                    [{ status := "queued", message := some "job created" },
                     { status := "done", message := none }] }],
       projects := [{ mkProject "p1" with status := "done" }],
       project_targets := [mkTarget "p1" "en"] }) := by decide

/-- C6 counterexample: a `tts_completed` callback for language `en` on a
project that already stores default voices for `fr` ends with the project's
voice map holding only the `en` entry — the `fr` entry is dropped, because
the handler `$set`s the whole `default_speaker_voices` field to the
single-language dict instead of merging. -/
theorem C6_counterexample :
    dictLookup (mkProject "p1"
      [("fr", [("S0", "v")])]).default_speaker_voices "fr"
      = some [("S0", "v")] ∧
    ((set_job_status testEnv 0 "j1"
        { status := "in_progress",
          metadata := some
            { stage := some "tts_completed", target_lang := some "en",
              speaker_voices := some [("S0", "w")] } }
        { baseSt with
          jobs := [mkJob "j1" "p1"],
          projects := [mkProject "p1" [("fr", [("S0", "v")])]],
          project_targets := [mkTarget "p1" "en"] }).2).projects =
      [{ mkProject "p1" with
         status := "tts_completed",
         default_speaker_voices := [("en", [("S0", "w")])] }] := by
  exact ⟨by decide, by decide⟩

theorem strOr_some_ne {a b : Option String} {s : String}
    (h : strOr a b = some s) : s ≠ "" := by
  unfold strOr at h
  cases ha : strTruthy a with
  | some u => rw [ha] at h; injection h with h; subst h; exact strTruthy_some_ne ha
  | none => rw [ha] at h; exact strTruthy_some_ne h

theorem applyJobStatusUpdate_id (payload : JobUpdateStatus)
    (message : Option String) (j : JobDoc) :
    (applyJobStatusUpdate payload message j).id = j.id := rfl

theorem applyJobStatusUpdate_project_id (payload : JobUpdateStatus)
    (message : Option String) (j : JobDoc) :
    (applyJobStatusUpdate payload message j).project_id = j.project_id := rfl

theorem update_job_status_run (jid : String) (payload : JobUpdateStatus)
    (message : Option String) (st : St) (job : JobDoc)
    (hjob : st.jobs.find? (fun j => j.id = objectId jid) = some job) :
    update_job_status jid payload message st =
      (.ok (applyJobStatusUpdate payload message job),
       (let statusUpd : Option String :=
          match (match payload.metadata with
                 | some m => strTruthy m.stage
                 | none => none) with
          | some s => some s
          | none => strTruthy payload.status
        let prefixUpd : Option String :=
          match payload.metadata with
          | some m => strTruthy m.segment_assets_prefix
          | none => none
        let st1 : St := { st with jobs :=
          (updateFirst (fun j => j.id = objectId jid)
            (applyJobStatusUpdate payload message) st.jobs) }
        if (statusUpd.isSome || prefixUpd.isSome) && job.project_id ≠ "" then
          { st1 with projects :=
              (updateFirst (fun d => d.id = objectId job.project_id)
                (fun d =>
                  { d with
                    status := statusUpd.getD d.status,
                    segment_assets_prefix :=
                      (if prefixUpd.isSome then prefixUpd
                       else d.segment_assets_prefix) })
                st1.projects) }
        else st1)) := by
  have hp0 : (applyJobStatusUpdate payload message job).id = objectId jid := by
    have h2 := List.find?_some hjob
    simp only [decide_eq_true_eq] at h2
    rw [applyJobStatusUpdate_id]
    exact h2
  unfold update_job_status
  simp only [bind_run, get_run, hjob, modify_run]
  rw [find?_updateFirst_self _ _ _ _ hjob (decide_eq_true hp0)]
  simp only [applyJobStatusUpdate_project_id]
  split <;> rfl

theorem set_job_status_run (env : Env) (now : Nat) (jid : String)
    (payload : JobUpdateStatus) (st stA stB : St) (r : JobDoc) (md : Metadata)
    (stage L : String) (tu : Option (TargetStatus × Int))
    (h1 : update_job_status jid payload none st = (.ok r, stA))
    (hmd : payload.metadata = some md) (hstage : md.stage = some stage)
    (hlang : strOr md.target_lang md.language_code = some L)
    (h2 : stageDispatch env now r.project_id (some L) md r stage stA
      = (.ok tu, stB)) :
    set_job_status env now jid payload st =
      (.ok r,
       match tu with
       | none => stB
       | some tup =>
         match targetFor stB r.project_id L with
         | none => stB
         | some t =>
           { stB with
             project_targets :=
               (updateFirst
                 (fun x => x.project_id = r.project_id && x.language_code = L)
                 (fun x => { x with status := tup.1, progress := tup.2 })
                 stB.project_targets),
             targetEvents := stB.targetEvents ++
               [{ project_id := r.project_id, language_code := L,
                  status := tup.1, progress := tup.2 }] }) := by
  unfold set_job_status
  simp only [bind_run, h1, hmd, hstage, hlang, Option.isNone_some,
    Bool.false_and]
  rw [if_neg (by simp)]
  simp only [bind_run, pure_run, Option.isNone_some, Bool.false_and]
  rw [if_neg (by simp)]
  simp only [bind_run, h2]
  cases tu with
  | none => simp only [pure_run]
  | some tup =>
    simp only [attempt_run, bind_run]
    unfold ProjectService.update_targets_by_project_and_language
    simp only [bind_run, get_run]
    cases ht : targetFor stB r.project_id L with
    | none =>
      unfold targetFor at ht
      simp only [ht, throw_run, pure_run]
    | some t =>
      unfold targetFor at ht
      have hpt : (fun x => x.project_id = r.project_id && x.language_code = L)
          ({ t with status := (some tup.1).getD t.status,
                    progress := (some tup.2).getD t.progress } : TargetDoc)
          = true := by
        have h3 := List.find?_some ht
        simpa using h3
      simp only [ht, modify_run, get_run, bind_run]
      rw [find?_updateFirst_self _ _ _ _ ht hpt]
      simp only [pure_run]
      unfold dispatch_target_update
      simp only [modify_run, pure_run, Option.getD_some]

/-- C10: every callback carrying a status or a truthy `metadata.stage`
overwrites the parent Project document's top-level `status` field as a side
effect of the primary job write — with the raw stage string when a stage is
present (whatever its name, known to the dispatch table or not), else with
the payload's job status. -/
theorem C10_project_status_overwrite (jid : String) (payload : JobUpdateStatus)
    (st : St) (job : JobDoc) (proj : ProjectDoc)
    (hjob : st.jobs.find? (fun j => j.id = objectId jid) = some job)
    (hproj : st.projects.find?
      (fun d => d.id = objectId job.project_id) = some proj)
    (hpid : job.project_id ≠ "") (hstatus : payload.status ≠ "")
    (hstage : ∀ m, payload.metadata = some m → m.stage ≠ some "") :
    (((update_job_status jid payload none st).2).projects.find?
        (fun d => d.id = objectId job.project_id)).map ProjectDoc.status =
      some (match payload.metadata with
            | some m => (match m.stage with
                         | some s => s
                         | none => payload.status)
            | none => payload.status) := by
  rw [update_job_status_run jid payload none st job hjob]
  cases hm : payload.metadata with
  | none =>
    simp only [hm]
    rw [if_pos (by simp [strTruthy, hstatus, hpid])]
    rw [find?_updateFirst_self _ _ _ _ hproj
      (by simpa using List.find?_some hproj)]
    simp [strTruthy, hstatus]
  | some m =>
    cases hs : m.stage with
    | none =>
      simp only [hm, hs]
      rw [if_pos (by simp [strTruthy, hstatus, hpid])]
      rw [find?_updateFirst_self _ _ _ _ hproj
        (by simpa using List.find?_some hproj)]
      simp [strTruthy, hstatus]
    | some s =>
      have hsne : s ≠ "" := fun h => (hstage m hm) (h ▸ hs)
      simp only [hm, hs]
      rw [if_pos (by simp [strTruthy, hsne, hpid])]
      rw [find?_updateFirst_self _ _ _ _ hproj
        (by simpa using List.find?_some hproj)]
      simp [strTruthy, hsne]

/-- C10 witness: a callback with an unknown stage name overwrites the project
status with that raw string. -/
theorem C10_witness :
    ((((update_job_status "j1"
        { status := "done", metadata := some { stage := some "weird_stage" } }
        none
        { baseSt with
          jobs := [mkJob "j1" "p1"],
          projects := [mkProject "p1"] }).2).projects.find?
        (fun d => d.id = objectId (mkJob "j1" "p1").project_id)).map
      ProjectDoc.status) = some "weird_stage" :=
  C10_project_status_overwrite "j1"
    { status := "done", metadata := some { stage := some "weird_stage" } }
    { baseSt with
      jobs := [mkJob "j1" "p1"],
      projects := [mkProject "p1"] }
    (mkJob "j1" "p1") (mkProject "p1") (by decide) (by decide) (by decide)
    (by decide)
    (by
      intro m hm
      injection hm with hm
      subst hm
      decide)

theorem ttsCompletedBlock_run (pid L : String) (md : Metadata)
    (sv : SpeakerVoices) (st : St) (proj : ProjectDoc)
    (hsv : md.speaker_voices = some sv) (hsvne : sv ≠ []) (hL : L ≠ "")
    (hproj : st.projects.find? (fun d => d.id = objectId pid) = some proj) :
    ttsCompletedBlock pid (some L) md st =
      (.ok (), { st with projects :=
        (updateFirst (fun d => d.id = objectId pid)
          (ProjectService.applyUpdate
            { project_id := pid, default_speaker_voices := some [(L, sv)] })
          st.projects) }) := by
  have h1 : listTruthy md.speaker_voices = some sv := by
    rw [hsv]
    cases sv with
    | nil => exact absurd rfl hsvne
    | cons a l => simp [listTruthy]
  have h2 : strTruthy (some L) = some L := by simp [strTruthy, hL]
  unfold ttsCompletedBlock
  simp only [h1, h2, attempt_run, bind_run]
  unfold ProjectService.update_project
  simp only [bind_run, modify_run, get_run]
  rw [find?_updateFirst_self _ _ _ _ hproj
    (by simpa [ProjectService.applyUpdate] using List.find?_some hproj)]
  simp only [pure_run]

/-- C6 (amended): a `tts_completed` callback carrying speaker voices for
language `L` replaces the Project's whole multi-language default-voice map
with the single entry for `L`; whatever entries the map previously held (for
any other languages) are discarded rather than preserved. -/
theorem C6_tts_voice_map (L : String) (sv : SpeakerVoices)
    (voices : List (String × SpeakerVoices)) (hL : L ≠ "") (hsv : sv ≠ []) :
    (((set_job_status testEnv 0 "j1"
        { status := "in_progress",
          metadata := some
            { stage := some "tts_completed", target_lang := some L,
              speaker_voices := some sv } }
        { baseSt with
          jobs := [mkJob "j1" "p1"],
          projects := [mkProject "p1" voices],
          project_targets := [mkTarget "p1" L] }).2).projects.map
      ProjectDoc.default_speaker_voices) = [[(L, sv)]] := by
  cases sv with
  | nil => exact absurd rfl hsv
  | cons v vs =>
    simp [set_job_status, update_job_status, applyJobStatusUpdate,
      updateFirst, stageDispatch, ttsCompletedBlock,
      ProjectService.update_project, ProjectService.applyUpdate,
      ProjectService.update_targets_by_project_and_language,
      dispatch_target_update, strOr, strTruthy, listTruthy, objectId,
      targetFor, mkJob, mkProject, mkTarget, baseSt, M.attempt, hL]

/-- C6 witness: concrete voices for `fr` get replaced by the `en` entry. -/
theorem C6_tts_voice_map_witness :
    (((set_job_status testEnv 0 "j1"
        { status := "in_progress",
          metadata := some
            { stage := some "tts_completed", target_lang := some "en",
              speaker_voices := some [("S0", "w")] } }
        { baseSt with
          jobs := [mkJob "j1" "p1"],
          projects := [mkProject "p1" [("fr", [("S0", "v")])]],
          project_targets := [mkTarget "p1" "en"] }).2).projects.map
      ProjectDoc.default_speaker_voices) = [[("en", [("S0", "w")])]] :=
  C6_tts_voice_map "en" [("S0", "w")] [("fr", [("S0", "v")])]
    (by decide) (by decide)

theorem NoRaise_bind {α β : Type} {m : M α} {f : α → M β}
    (hm : NoRaise m) (hf : ∀ a, NoRaise (f a)) : NoRaise (m >>= f) := by
  intro st
  simp only [bind_run]
  obtain ⟨a, ha⟩ := hm st
  cases hb : m st with
  | mk fst snd =>
    rw [hb] at ha
    simp at ha
    subst ha
    exact hf a snd

theorem NoRaise_pure {α : Type} (a : α) : NoRaise (pure a : M α) :=
  fun _ => ⟨a, rfl⟩

theorem NoRaise_get : NoRaise M.get := fun st => ⟨st, rfl⟩

theorem NoRaise_modify (f : St → St) : NoRaise (M.modify f) :=
  fun _ => ⟨(), rfl⟩

theorem NoRaise_freshId : NoRaise M.freshId := fun st => ⟨_, rfl⟩

theorem NoRaise_attempt {α : Type} (m : M α) {h : M α} (hh : NoRaise h) :
    NoRaise (M.attempt m h) := by
  intro st
  simp only [attempt_run]
  cases hb : m st with
  | mk fst snd =>
    cases fst with
    | ok a => exact ⟨a, rfl⟩
    | error e => exact hh snd

theorem run_split {α : Type} (m : M α) (st : St) (hm : NoRaise m) :
    ∃ a, m st = (.ok a, (m st).2) := by
  obtain ⟨a, ha⟩ := hm st
  exact ⟨a, by rw [← ha]⟩

theorem PT_freshId : PT M.freshId := fun _ => rfl

theorem PT_get : PT M.get := fun _ => rfl

theorem PT_update_project (p : ProjectService.UpdateArgs) :
    PT (ProjectService.update_project p) := by
  unfold ProjectService.update_project
  repeat' first
    | exact PT_pure _
    | exact PT_throw _
    | exact PT_get
    | exact PT_modify (fun _ => rfl)
    | refine PT_bind ?_ (fun _ => ?_)
    | split

theorem PT_create_asset (pid lang rk : String) :
    PT (create_asset_from_result pid lang rk) := by
  unfold create_asset_from_result
  exact PT_attempt (PT_modify (fun _ => rfl)) (PT_pure _)

theorem PT_dispatch_audio_routes (pid lc sid key : String) (d : Int) :
    PT (dispatch_audio_completed_routes pid lc sid key d) := by
  unfold dispatch_audio_completed_routes
  exact PT_modify (fun _ => rfl)

theorem PT_insertSegs (now : Nat) (l : List SegCreate) :
    PT (insertSegs now l) := by
  induction l with
  | nil => exact PT_pure _
  | cons d ds ih =>
    unfold insertSegs
    dsimp only
    repeat' first
      | exact ih
      | exact PT_pure _
      | exact PT_freshId
      | exact PT_modify (fun _ => rfl)
      | refine PT_bind ?_ (fun _ => ?_)

theorem PT_upsertTranslation (now : Nat) (t : TransData) :
    PT (upsertTranslation now t) := by
  unfold upsertTranslation
  repeat' first
    | exact PT_pure _
    | exact PT_get
    | exact PT_freshId
    | exact PT_modify (fun _ => rfl)
    | refine PT_bind ?_ (fun _ => ?_)
    | split

theorem PT_applyUpserts (now : Nat) (l : List TransData) :
    PT (applyUpserts now l) := by
  induction l with
  | nil => exact PT_pure _
  | cons t rest ih =>
    unfold applyUpserts
    exact PT_bind (PT_upsertTranslation now t) (fun _ => ih)

theorem PT_ccs (now : Nat) (pid : String) (segs : List SegInput)
    (lang : String) (tts : Option (List String)) :
    PT (check_and_create_segments now pid segs lang tts) := by
  unfold check_and_create_segments
  dsimp only
  repeat' first
    | exact PT_insertSegs _ _
    | exact PT_attempt (PT_applyUpserts _ _) (PT_pure _)
    | exact PT_pure _
    | exact PT_throw _
    | exact PT_get
    | refine PT_bind ?_ (fun _ => ?_)
    | split

theorem PT_process_md (env : Env) (now : Nat) (pid : String) (m : Metadata)
    (rk : Option String) (dt : Option String) :
    PT (process_md_completion env now pid m rk dt) := by
  unfold process_md_completion
  dsimp only
  repeat' first
    | exact PT_ccs _ _ _ _ _
    | exact PT_create_asset _ _ _
    | exact PT_pure _
    | exact PT_throw _
    | refine PT_attempt ?_ ?_
    | refine PT_bind ?_ (fun _ => ?_)
    | split

theorem PT_asrCompletedBlock (pid : String) (md : Metadata) :
    PT (asrCompletedBlock pid md) := by
  unfold asrCompletedBlock
  dsimp only
  repeat' first
    | exact PT_update_project _
    | exact PT_pure _
    | refine PT_attempt ?_ ?_
    | refine PT_bind ?_ (fun _ => ?_)
    | split

theorem PT_ttsCompletedBlock (pid : String) (lc : Option String)
    (md : Metadata) : PT (ttsCompletedBlock pid lc md) := by
  unfold ttsCompletedBlock
  dsimp only
  repeat' first
    | exact PT_update_project _
    | exact PT_pure _
    | refine PT_attempt ?_ ?_
    | refine PT_bind ?_ (fun _ => ?_)
    | split

theorem PT_comp {α : Type} {g : M α} {f : St → St}
    (hf : ∀ st, (f st).project_targets = st.project_targets) (hg : PT g) :
    PT (fun st => g (f st)) := fun st => by rw [hg (f st), hf st]

theorem PT_segmentTtsCompletedBlock (env : Env) (pid : String)
    (lc : Option String) (md : Metadata) :
    PT (segmentTtsCompletedBlock env pid lc md) := by
  unfold segmentTtsCompletedBlock
  repeat' first
    | exact PT_dispatch_audio_routes _ _ _ _ _
    | exact PT_pure _
    | exact PT_throw _
    | exact PT_get
    | exact PT_modify (fun _ => rfl)
    | refine PT_attempt ?_ ?_
    | refine PT_bind ?_ (fun _ => ?_)
    | split
    | dsimp only

theorem PT_doneSpeakerVoicesBlock (pid : String) (lc : Option String)
    (md : Metadata) : PT (doneSpeakerVoicesBlock pid lc md) := by
  unfold doneSpeakerVoicesBlock
  dsimp only
  repeat' first
    | exact PT_update_project _
    | exact PT_pure _
    | exact PT_get
    | refine PT_attempt ?_ ?_
    | refine PT_bind ?_ (fun _ => ?_)
    | split

theorem NoRaise_attempt_pure {α : Type} (m : M α) (a : α) :
    NoRaise (M.attempt m (pure a)) := by
  intro st
  simp only [attempt_run]
  cases hb : m st with
  | mk fst snd =>
    cases fst with
    | ok v => exact ⟨v, rfl⟩
    | error e => exact ⟨a, rfl⟩

theorem NoRaise_asrCompletedBlock (pid : String) (md : Metadata) :
    NoRaise (asrCompletedBlock pid md) := by
  unfold asrCompletedBlock
  dsimp only
  repeat' first
    | exact NoRaise_attempt_pure _ _
    | exact NoRaise_pure _
    | refine NoRaise_bind ?_ (fun _ => ?_)
    | split

theorem NoRaise_ttsCompletedBlock (pid : String) (lc : Option String)
    (md : Metadata) : NoRaise (ttsCompletedBlock pid lc md) := by
  unfold ttsCompletedBlock
  dsimp only
  repeat' first
    | exact NoRaise_attempt_pure _ _
    | exact NoRaise_pure _
    | refine NoRaise_bind ?_ (fun _ => ?_)
    | split

theorem NoRaise_segmentTtsCompletedBlock (env : Env) (pid : String)
    (lc : Option String) (md : Metadata) :
    NoRaise (segmentTtsCompletedBlock env pid lc md) := by
  unfold segmentTtsCompletedBlock
  dsimp only
  repeat' first
    | exact NoRaise_attempt_pure _ _
    | exact NoRaise_pure _
    | refine NoRaise_bind ?_ (fun _ => ?_)
    | split

theorem NoRaise_doneSpeakerVoicesBlock (pid : String) (lc : Option String)
    (md : Metadata) : NoRaise (doneSpeakerVoicesBlock pid lc md) := by
  unfold doneSpeakerVoicesBlock
  dsimp only
  repeat' first
    | exact NoRaise_attempt_pure _ _
    | exact NoRaise_pure _
    | refine NoRaise_bind ?_ (fun _ => ?_)
    | split

theorem exceptOk_ok {e a : Type} {x : Except e a} (h : exceptOk x = true) :
    ∃ v, x = .ok v := by
  cases x with
  | ok v => exact ⟨v, rfl⟩
  | error f => simp [exceptOk] at h

theorem except_bind_ok {e a b : Type} (x : a) (f : a → Except e b) :
    (Except.ok x : Except e a) >>= f = f x := rfl

theorem normalizeSegment_ok (pid : String) (i : Nat) (seg : SegInput)
    (h : segCastOk seg = true) : ∃ d, normalizeSegment pid i seg = .ok d := by
  unfold segCastOk at h
  simp only [Bool.and_eq_true] at h
  obtain ⟨⟨hs, he⟩, hidx⟩ := h
  obtain ⟨s1, hs1⟩ := exceptOk_ok hs
  obtain ⟨s2, hs2⟩ := exceptOk_ok he
  unfold normalizeSegment
  by_cases hsp : seg.speaker_tag.isSome
  · simp only [hsp, hs1, hs2, Except.mapError, if_true, ite_true]
    exact ⟨_, rfl⟩
  · cases hx : seg.seg_idx with
    | some v =>
      rw [hx] at hidx
      obtain ⟨n, hn⟩ := exceptOk_ok hidx
      simp only [hsp, hs1, hs2, hx, hn, Except.mapError, if_false, ite_false,
        Bool.false_eq_true]
      exact ⟨_, rfl⟩
    | none =>
      cases hsid : seg.segment_id with
      | some v =>
        simp only [hsp, hs1, hs2, hx, hsid, Except.mapError, if_false,
          ite_false, Bool.false_eq_true]
        exact ⟨_, rfl⟩
      | none =>
        simp only [hsp, hs1, hs2, hx, hsid, Except.mapError, if_false,
          ite_false, Bool.false_eq_true]
        exact ⟨_, rfl⟩

theorem normalizeSegments_ok (pid : String) :
    ∀ segs : List SegInput, segsWF segs = true →
      ∀ i, ∃ out, normalizeSegments pid i segs = .ok out := by
  intro segs
  induction segs with
  | nil => exact fun _ i => ⟨[], rfl⟩
  | cons s rest ih =>
    intro hwf i
    simp only [segsWF, List.all_cons, Bool.and_eq_true] at hwf
    obtain ⟨h1, h2⟩ := hwf
    obtain ⟨d, hd⟩ := normalizeSegment_ok pid i s h1
    obtain ⟨out, hout⟩ := ih (by simpa [segsWF] using h2) (i + 1)
    refine ⟨d :: out, ?_⟩
    unfold normalizeSegments
    simp only [hd, hout, except_bind_ok]

theorem normalizeSegments_ne_error (pid : String) {segs : List SegInput}
    (hwf : segsWF segs = true) (i : Nat) (e : PyErr) :
    normalizeSegments pid i segs ≠ .error e := by
  obtain ⟨out, hout⟩ := normalizeSegments_ok pid segs hwf i
  simp [hout]

theorem translationIndex_ok (i : Nat) (seg : SegInput)
    (h : segCastOk seg = true) : ∃ n, translationIndex i seg = .ok n := by
  unfold segCastOk at h
  simp only [Bool.and_eq_true] at h
  obtain ⟨⟨_, _⟩, hidx⟩ := h
  unfold translationIndex
  cases hix : seg.segment_index with
  | some n => exact ⟨n, rfl⟩
  | none =>
    cases hx : seg.seg_idx with
    | some v =>
      rw [hx] at hidx
      obtain ⟨n, hn⟩ := exceptOk_ok hidx
      exact ⟨n, by simp [hn, Except.mapError]⟩
    | none =>
      cases hsid : seg.segment_id with
      | some v => exact ⟨_, rfl⟩
      | none => exact ⟨_, rfl⟩

theorem buildTranslations_ok (lang : String) (tts : Option (List String)) :
    ∀ segs : List SegInput, segsWF segs = true →
      ∀ ids_map i, ∃ out,
        buildTranslations lang tts ids_map i segs = .ok out := by
  intro segs
  induction segs with
  | nil => exact fun _ m i => ⟨[], rfl⟩
  | cons s rest ih =>
    intro hwf m i
    simp only [segsWF, List.all_cons, Bool.and_eq_true] at hwf
    obtain ⟨h1, h2⟩ := hwf
    obtain ⟨n, hn⟩ := translationIndex_ok i s h1
    obtain ⟨out, hout⟩ := ih (by simpa [segsWF] using h2) m (i + 1)
    unfold buildTranslations
    cases hl : imapLookup m n with
    | none =>
      refine ⟨out, ?_⟩
      simp only [hn, hout, except_bind_ok, hl]
    | some oid =>
      simp only [hn, hout, except_bind_ok, hl]
      exact ⟨_, rfl⟩

theorem buildTranslations_ne_error (lang : String) (tts : Option (List String))
    {segs : List SegInput} (hwf : segsWF segs = true)
    (ids_map : List (Int × String)) (i : Nat) (e : PyErr) :
    buildTranslations lang tts ids_map i segs ≠ .error e := by
  obtain ⟨out, hout⟩ := buildTranslations_ok lang tts segs hwf ids_map i
  simp [hout]

theorem NoRaise_insertSegs (now : Nat) (l : List SegCreate) :
    NoRaise (insertSegs now l) := by
  induction l with
  | nil => exact NoRaise_pure _
  | cons d ds ih =>
    unfold insertSegs
    dsimp only
    repeat' first
      | exact ih
      | exact NoRaise_pure _
      | exact NoRaise_freshId
      | exact NoRaise_modify _
      | refine NoRaise_bind ?_ (fun _ => ?_)

theorem NoRaise_upsertTranslation (now : Nat) (t : TransData) :
    NoRaise (upsertTranslation now t) := by
  unfold upsertTranslation
  repeat' first
    | exact NoRaise_pure _
    | exact NoRaise_get
    | exact NoRaise_freshId
    | exact NoRaise_modify _
    | refine NoRaise_bind ?_ (fun _ => ?_)
    | split

theorem NoRaise_applyUpserts (now : Nat) (l : List TransData) :
    NoRaise (applyUpserts now l) := by
  induction l with
  | nil => exact NoRaise_pure _
  | cons t rest ih =>
    unfold applyUpserts
    exact NoRaise_bind (NoRaise_upsertTranslation now t) (fun _ => ih)

theorem ccs_noraise (now : Nat) (pid : String) {segs : List SegInput}
    (lang : String) (tts : Option (List String))
    (hwf : segsWF segs = true) :
    NoRaise (check_and_create_segments now pid segs lang tts) := by
  unfold check_and_create_segments
  dsimp only
  repeat' first
    | exact NoRaise_insertSegs _ _
    | exact NoRaise_attempt_pure _ _
    | exact NoRaise_pure _
    | exact NoRaise_get
    | refine NoRaise_bind ?_ (fun _ => ?_)
    | exact absurd (by assumption)
        (normalizeSegments_ne_error pid hwf _ _)
    | exact absurd (by assumption)
        (buildTranslations_ne_error lang tts hwf _ _ _)
    | split

theorem process_md_noraise (env : Env) (now : Nat) (pid : String)
    (m : Metadata) (rk : Option String) (dt : Option String)
    (hwf : metadataSegmentsWF m = true) :
    NoRaise (process_md_completion env now pid m rk dt) := by
  have hccs : ∀ lang tts, NoRaise (check_and_create_segments now pid
      (m.segments.getD []) lang tts) :=
    fun lang tts => ccs_noraise now pid lang tts hwf
  unfold process_md_completion
  dsimp only
  repeat' first
    | exact NoRaise_bind (hccs _ _) (fun _ => NoRaise_pure _)
    | exact NoRaise_attempt_pure _ _
    | refine NoRaise_attempt _ ?_
    | exact NoRaise_pure _
    | exact NoRaise_bind (NoRaise_attempt_pure _ _) (fun _ => NoRaise_pure _)
    | refine NoRaise_bind ?_ (fun _ => ?_)
    | split

theorem run_block_pure {α β : Type} (block : M α) (v : β) (st0 : St)
    (hnr : NoRaise block) :
    (block >>= fun _ => pure v) st0 = (.ok v, (block st0).2) := by
  obtain ⟨a, ha⟩ := hnr st0
  simp only [bind_run]
  cases hb : block st0 with
  | mk fst snd =>
    rw [hb] at ha
    have ha' : fst = Except.ok a := ha
    subst ha'
    simp only [hb]
    rfl

theorem run_block2_pure {α β γ : Type} (b1 : M α) (b2 : M β) (v : γ)
    (st0 : St) (h1 : NoRaise b1) (h2 : NoRaise b2) :
    (b1 >>= fun _ => b2 >>= fun _ => pure v) st0 =
      (.ok v, (b2 (b1 st0).2).2) := by
  obtain ⟨a1, ha1⟩ := h1 st0
  simp only [bind_run]
  cases hb1 : b1 st0 with
  | mk f1 s1 =>
    rw [hb1] at ha1
    have ha1' : f1 = Except.ok a1 := ha1
    subst ha1'
    exact run_block_pure b2 v s1 h2

theorem stageDispatch_table (env : Env) (now : Nat) (pid : String)
    (lc : Option String) (md : Metadata) (r : JobDoc) (stage : String)
    (hwf : metadataSegmentsWF md = true) (st0 : St) :
    ∃ st1, stageDispatch env now pid lc md r stage st0
        = (.ok (lookupStage stage), st1) ∧
      st1.project_targets = st0.project_targets := by
  unfold stageDispatch
  by_cases h1 : stage = "starting"
  · subst h1
    exact ⟨st0, by simp [lookupStage, stageTable], rfl⟩
  rw [if_neg h1]
  by_cases h2 : stage = "asr_started"
  · subst h2
    exact ⟨st0, by simp [lookupStage, stageTable], rfl⟩
  rw [if_neg h2]
  by_cases h3 : stage = "asr_completed"
  · subst h3
    refine ⟨((asrCompletedBlock pid md) st0).2, ?_,
      PT_asrCompletedBlock pid md st0⟩
    rw [if_pos rfl]
    rw [run_block_pure _ _ _ (NoRaise_asrCompletedBlock pid md)]
    simp [lookupStage, stageTable]
  rw [if_neg h3]
  by_cases h4 : stage = "translation_started"
  · subst h4
    exact ⟨st0, by simp [lookupStage, stageTable], rfl⟩
  rw [if_neg h4]
  by_cases h5 : stage = "translation_completed"
  · subst h5
    exact ⟨st0, by simp [lookupStage, stageTable], rfl⟩
  rw [if_neg h5]
  by_cases h6 : stage = "tts_started"
  · subst h6
    exact ⟨st0, by simp [lookupStage, stageTable], rfl⟩
  rw [if_neg h6]
  by_cases h7 : stage = "tts_completed"
  · subst h7
    refine ⟨((ttsCompletedBlock pid lc md) st0).2, ?_,
      PT_ttsCompletedBlock pid lc md st0⟩
    rw [if_pos rfl]
    rw [run_block_pure _ _ _ (NoRaise_ttsCompletedBlock pid lc md)]
    simp [lookupStage, stageTable]
  rw [if_neg h7]
  by_cases h8 : stage = "segment_tts_completed"
  · subst h8
    refine ⟨((segmentTtsCompletedBlock env pid lc md) st0).2, ?_,
      PT_segmentTtsCompletedBlock env pid lc md st0⟩
    rw [if_pos rfl]
    rw [run_block_pure _ _ _
      (NoRaise_segmentTtsCompletedBlock env pid lc md)]
    simp [lookupStage, stageTable]
  rw [if_neg h8]
  by_cases h9 : stage = "mux_started"
  · subst h9
    exact ⟨st0, by simp [lookupStage, stageTable], rfl⟩
  rw [if_neg h9]
  by_cases h10 : stage = "done"
  · subst h10
    refine ⟨((process_md_completion env now pid md
        (strOr md.result_key r.result_key) lc)
        ((doneSpeakerVoicesBlock pid lc md st0).2)).2, ?_, ?_⟩
    · rw [if_pos rfl]
      rw [show lookupStage "done" = some (TargetStatus.completed, 100)
        from rfl]
      exact run_block2_pure (doneSpeakerVoicesBlock pid lc md)
        (process_md_completion env now pid md
          (strOr md.result_key r.result_key) lc)
        (some (TargetStatus.completed, 100)) st0
        (NoRaise_doneSpeakerVoicesBlock pid lc md)
        (process_md_noraise env now pid md _ lc hwf)
    · rw [PT_process_md env now pid md _ lc _,
        PT_doneSpeakerVoicesBlock pid lc md st0]
  rw [if_neg h10]
  by_cases h11 : stage = "failed"
  · subst h11
    exact ⟨st0, by simp [lookupStage, stageTable], rfl⟩
  rw [if_neg h11]
  refine ⟨st0, ?_, rfl⟩
  have hnone : lookupStage stage = none := by
    simp [lookupStage, stageTable, Ne.symm h1, Ne.symm h2, Ne.symm h3,
      Ne.symm h4, Ne.symm h5, Ne.symm h6, Ne.symm h7, Ne.symm h8,
      Ne.symm h9, Ne.symm h10, Ne.symm h11]
  rw [hnone]
  rfl

theorem PT_update_job_status (jid : String) (payload : JobUpdateStatus)
    (message : Option String) : PT (update_job_status jid payload message) := by
  unfold update_job_status
  dsimp only
  repeat' first
    | exact PT_pure _
    | exact PT_throw _
    | exact PT_get
    | exact PT_modify (fun _ => rfl)
    | refine PT_bind ?_ (fun _ => ?_)
    | split

/-- C1: for every worker callback resolving a language and a stored target,
the handler maps the stage through exactly the spec's eleven-row table: a
stage found in the table leaves the matching ProjectTarget at precisely the
documented (status, progress) pair, and a stage outside the table leaves the
whole `project_targets` collection untouched. -/
theorem C1_stage_table (env : Env) (now : Nat) (jid : String)
    (payload : JobUpdateStatus) (st : St) (job : JobDoc) (md : Metadata)
    (stage L : String) (t0 : TargetDoc)
    (hjob : st.jobs.find? (fun j => j.id = objectId jid) = some job)
    (hmd : payload.metadata = some md) (hstage : md.stage = some stage)
    (hlang : strOr md.target_lang md.language_code = some L)
    (hwf : metadataSegmentsWF md = true)
    (htgt : targetFor st job.project_id L = some t0) :
    (∀ s p, lookupStage stage = some (s, p) →
      targetFor (set_job_status env now jid payload st).2 job.project_id L
        = some { t0 with status := s, progress := p }) ∧
    (lookupStage stage = none →
      ((set_job_status env now jid payload st).2).project_targets
        = st.project_targets) := by
  have hU := update_job_status_run jid payload none st job hjob
  have h1 : update_job_status jid payload none st =
      (.ok (applyJobStatusUpdate payload none job),
       (update_job_status jid payload none st).2) := by
    rw [hU]
  have hApt : ((update_job_status jid payload none st).2).project_targets
      = st.project_targets := PT_update_job_status jid payload none st
  obtain ⟨stB, h2, hBpt⟩ := stageDispatch_table env now
    (applyJobStatusUpdate payload none job).project_id (some L) md
    (applyJobStatusUpdate payload none job) stage hwf
    ((update_job_status jid payload none st).2)
  have hrp : (applyJobStatusUpdate payload none job).project_id
      = job.project_id := applyJobStatusUpdate_project_id payload none job
  have hBt : stB.project_targets = st.project_targets := hBpt.trans hApt
  have htB : stB.project_targets.find?
      (fun t => t.project_id = job.project_id && t.language_code = L)
      = some t0 := by
    unfold targetFor at htgt
    rw [hBt]
    exact htgt
  cases hls : lookupStage stage with
  | none =>
    rw [hls] at h2
    have hmain := set_job_status_run env now jid payload st
      ((update_job_status jid payload none st).2) stB
      (applyJobStatusUpdate payload none job) md stage L none
      h1 hmd hstage hlang h2
    constructor
    · intro s p hsp
      exact absurd hsp (by simp)
    · intro _
      rw [hmain]
      exact hBt
  | some sp =>
    rw [hls] at h2
    have hmain := set_job_status_run env now jid payload st
      ((update_job_status jid payload none st).2) stB
      (applyJobStatusUpdate payload none job) md stage L (some sp)
      h1 hmd hstage hlang h2
    have htB2 : targetFor stB
        (applyJobStatusUpdate payload none job).project_id L = some t0 := by
      rw [show targetFor stB
            (applyJobStatusUpdate payload none job).project_id L
          = stB.project_targets.find?
              (fun t => t.project_id = job.project_id && t.language_code = L)
        from rfl]
      exact htB
    rw [htB2] at hmain
    constructor
    · intro s p hsp
      injection hsp with hsp
      subst hsp
      rw [hmain]
      show (updateFirst
          (fun x => x.project_id = job.project_id && x.language_code = L)
          (fun x => { x with status := s, progress := p })
          stB.project_targets).find?
          (fun t => t.project_id = job.project_id && t.language_code = L)
        = some { t0 with status := s, progress := p }
      refine find?_updateFirst_self _ _ _ t0 htB ?_
      have hp0 := List.find?_some htB
      simpa using hp0
    · intro hn
      exact absurd hn (by simp)

theorem C1_stage_table_witness :
    targetFor (set_job_status testEnv 0 "j1"
      { status := "processing",
        metadata := some { stage := some "starting",
                           target_lang := some "en" } }
      { baseSt with
        jobs := [mkJob "j1" "p1"],
        projects := [mkProject "p1"],
        project_targets := [mkTarget "p1" "en"] }).2
      (mkJob "j1" "p1").project_id "en"
      = some { mkTarget "p1" "en" with
               status := .processing, progress := 1 } :=
  (C1_stage_table testEnv 0 "j1"
    { status := "processing",
      metadata := some { stage := some "starting",
                         target_lang := some "en" } }
    { baseSt with
      jobs := [mkJob "j1" "p1"],
      projects := [mkProject "p1"],
      project_targets := [mkTarget "p1" "en"] }
    (mkJob "j1" "p1")
    { stage := some "starting", target_lang := some "en" }
    "starting" "en" (mkTarget "p1" "en")
    (by decide) rfl rfl (by decide) (by decide) (by decide)).1
    .processing 1 (by decide)

theorem attempt_of_noRaise {α : Type} {m : M α} (hdl : M α) (st : St)
    (h : NoRaise m) : M.attempt m hdl st = m st := by
  obtain ⟨a, ha⟩ := h st
  cases hm : m st with
  | mk f s =>
    rw [hm] at ha
    have ha' : f = Except.ok a := ha
    subst ha'
    simp only [attempt_run, hm]

theorem run_unit_ok (m : M Unit) (h : NoRaise m) (st : St) :
    m st = (.ok (), (m st).2) := by
  obtain ⟨a, ha⟩ := h st
  cases hm : m st with
  | mk f s =>
    rw [hm] at ha
    cases a
    have ha' : f = Except.ok () := ha
    subst ha'
    rfl

theorem updateFirst_length {α : Type} (p : α → Bool) (f : α → α)
    (l : List α) : (updateFirst p f l).length = l.length := by
  induction l with
  | nil => rfl
  | cons x xs ih =>
    simp only [updateFirst]
    split
    · simp
    · simp [ih]

theorem countP_updateFirst {α : Type} (p : α → Bool) (f : α → α)
    (q : α → Bool) (l : List α) (h : ∀ x, q (f x) = q x) :
    (updateFirst p f l).countP q = l.countP q := by
  induction l with
  | nil => rfl
  | cons x xs ih =>
    simp only [updateFirst]
    split
    · simp [List.countP_cons, h x]
    · simp [List.countP_cons, ih]

theorem insertSegs_run (now : Nat) (l : List SegCreate) (st : St) :
    insertSegs now l st =
      (.ok (insertedDocs now st.freshCtr l), ccsInsertState now st l) := by
  induction l generalizing st with
  | nil =>
    simp only [insertSegs, insertedDocs, ccsInsertState, List.append_nil,
      List.length_nil, Nat.add_zero]
    rfl
  | cons d ds ih =>
    simp only [insertSegs, bind_run, freshId_run, modify_run]
    rw [ih]
    simp only [pure_run, insertedDocs, ccsInsertState]
    have h1 : (st.project_segments ++
          [{ id := oidOf st.freshCtr, project_id := d.project_id,
             speaker_tag := d.speaker_tag, seg_start := d.seg_start,
             seg_end := d.seg_end, source_text := d.source_text,
             segment_index := d.segment_index, is_verified := false,
             created_at := now }]) ++ insertedDocs now (st.freshCtr + 1) ds
        = st.project_segments ++
          ({ id := oidOf st.freshCtr, project_id := d.project_id,
             speaker_tag := d.speaker_tag, seg_start := d.seg_start,
             seg_end := d.seg_end, source_text := d.source_text,
             segment_index := d.segment_index, is_verified := false,
             created_at := now } :: insertedDocs now (st.freshCtr + 1) ds) := by
      rw [List.append_assoc]
      rfl
    have h2 : st.freshCtr + 1 + ds.length = st.freshCtr + (ds.length + 1) := by
      omega
    rw [h1, h2]
    rfl

theorem insertedDocs_length (now ctr : Nat) (l : List SegCreate) :
    (insertedDocs now ctr l).length = l.length := by
  induction l generalizing ctr with
  | nil => rfl
  | cons d ds ih => simp [insertedDocs, ih]

theorem insertedDocs_pid (now ctr : Nat) (pid : String)
    (l : List SegCreate) (h : ∀ c ∈ l, c.project_id = pid) :
    ∀ doc ∈ insertedDocs now ctr l, doc.project_id = pid := by
  induction l generalizing ctr with
  | nil => intro doc hd; simp [insertedDocs] at hd
  | cons d ds ih =>
    intro doc hd
    simp only [insertedDocs, List.mem_cons] at hd
    cases hd with
    | inl he => subst he; exact h d (by simp)
    | inr ht => exact ih (ctr + 1) (fun c hc => h c (by simp [hc])) doc ht

theorem filter_append_eq {α : Type} (p : α → Bool) (l docs : List α)
    (h1 : l.filter p = []) (h2 : ∀ x ∈ docs, p x = true) :
    (l ++ docs).filter p = docs := by
  rw [List.filter_append, h1, List.nil_append, List.filter_eq_self.mpr h2]

theorem seq_run {β : Type} (m : M Unit) (k : M β) (h : NoRaise m) (st : St) :
    (m >>= fun _ => k) st = k ((m st).2) := by
  rw [bind_run, run_unit_ok m h st]

theorem upsertTranslation_run2 (now : Nat) (t : TransData) (st : St) :
    (upsertTranslation now t st).2 =
      if (st.segment_translations.find?
          (fun d => d.segment_id = t.segment_id &&
                    d.language_code = t.language_code)).isSome then
        { st with segment_translations :=
            (updateFirst
              (fun d => d.segment_id = t.segment_id &&
                        d.language_code = t.language_code)
              (fun d => { d with target_text := t.target_text,
                                 segment_audio_url := t.segment_audio_url,
                                 created_at := now })
              st.segment_translations) }
      else
        { st with
          segment_translations :=
            (st.segment_translations ++
              [{ id := oidOf st.freshCtr, segment_id := t.segment_id,
                 language_code := t.language_code,
                 target_text := t.target_text,
                 segment_audio_url := t.segment_audio_url,
                 created_at := now }]),
          freshCtr := st.freshCtr + 1 } := by
  unfold upsertTranslation
  simp only [bind_run, get_run]
  split
  · rfl
  · simp only [bind_run, freshId_run, modify_run]

theorem upsertTranslation_trans (now : Nat) (t : TransData) (st : St) :
    (upsertTranslation now t st).2.segment_translations =
      if (st.segment_translations.find?
          (fun d => d.segment_id = t.segment_id &&
                    d.language_code = t.language_code)).isSome then
        updateFirst
          (fun d => d.segment_id = t.segment_id &&
                    d.language_code = t.language_code)
          (fun d => { d with target_text := t.target_text,
                             segment_audio_url := t.segment_audio_url,
                             created_at := now })
          st.segment_translations
      else
        st.segment_translations ++
          [{ id := oidOf st.freshCtr, segment_id := t.segment_id,
             language_code := t.language_code, target_text := t.target_text,
             segment_audio_url := t.segment_audio_url,
             created_at := now }] := by
  rw [upsertTranslation_run2]
  split
  · rfl
  · rfl

theorem upsertTranslation_ps (now : Nat) (t : TransData) (st : St) :
    (upsertTranslation now t st).2.project_segments = st.project_segments := by
  rw [upsertTranslation_run2]
  split
  · rfl
  · rfl

theorem upsert_count_mono (now : Nat) (t : TransData) (st : St)
    (sid lc : String) :
    transKeyCount st.segment_translations sid lc ≤
      transKeyCount (upsertTranslation now t st).2.segment_translations
        sid lc := by
  rw [upsertTranslation_trans]
  split
  · simp only [transKeyCount]
    rw [countP_updateFirst]
    exact fun x => rfl
  · simp only [transKeyCount, List.countP_append]
    exact Nat.le_add_right _ _

theorem upsert_own_key (now : Nat) (t : TransData) (st : St) :
    0 < transKeyCount (upsertTranslation now t st).2.segment_translations
        t.segment_id t.language_code := by
  rw [upsertTranslation_trans]
  split
  · next h =>
    simp only [transKeyCount]
    rw [countP_updateFirst]
    rw [List.countP_pos]
    obtain ⟨x, hx⟩ := Option.isSome_iff_exists.mp h
    have hm := List.mem_of_find?_eq_some hx
    have hp := List.find?_some hx
    exact ⟨x, hm, hp⟩
    exact fun x => rfl
  · simp [transKeyCount, List.countP_append, List.countP_cons]

theorem upsert_noDup (now : Nat) (t : TransData) (st : St)
    (h : transNoDup st.segment_translations) :
    transNoDup (upsertTranslation now t st).2.segment_translations := by
  intro sid lc
  rw [upsertTranslation_trans]
  split
  · simp only [transKeyCount]
    rw [countP_updateFirst]
    exact h sid lc
    exact fun x => rfl
  · next hn =>
    have hnone : st.segment_translations.find?
        (fun d => d.segment_id = t.segment_id &&
                  d.language_code = t.language_code) = none := by
      cases hf : st.segment_translations.find?
          (fun d => d.segment_id = t.segment_id &&
                    d.language_code = t.language_code) with
      | none => rfl
      | some x => exact absurd (by simp [hf]) hn
    simp only [transKeyCount, List.countP_append, List.countP_cons,
      List.countP_nil]
    by_cases hk : t.segment_id = sid ∧ t.language_code = lc
    · obtain ⟨hk1, hk2⟩ := hk
      subst hk1
      subst hk2
      have h0 : st.segment_translations.countP
          (fun d => d.segment_id = t.segment_id &&
                    d.language_code = t.language_code) = 0 := by
        rw [List.countP_eq_zero]
        intro a ha
        have := List.find?_eq_none.mp hnone a ha
        simpa using this
      simp [h0]
    · have hcond : (decide (t.segment_id = sid) &&
          decide (t.language_code = lc)) = false := by
        simp only [Bool.and_eq_false_iff, decide_eq_false_iff_not]
        by_cases h1 : t.segment_id = sid
        · exact Or.inr (fun h2 => hk ⟨h1, h2⟩)
        · exact Or.inl h1
      rw [hcond]
      simpa using h sid lc

theorem upsert_len_of_key (now : Nat) (t : TransData) (st : St)
    (h : 0 < transKeyCount st.segment_translations
        t.segment_id t.language_code) :
    (upsertTranslation now t st).2.segment_translations.length =
      st.segment_translations.length := by
  rw [upsertTranslation_trans]
  have hs : (st.segment_translations.find?
      (fun d => d.segment_id = t.segment_id &&
                d.language_code = t.language_code)).isSome = true := by
    rw [List.find?_isSome]
    exact List.countP_pos.mp h
  rw [if_pos hs]
  exact updateFirst_length _ _ _

theorem applyUpserts_ps (now : Nat) (l : List TransData) : ∀ st : St,
    (applyUpserts now l st).2.project_segments = st.project_segments := by
  induction l with
  | nil => intro st; rfl
  | cons t rest ih =>
    intro st
    unfold applyUpserts
    rw [seq_run _ _ (NoRaise_upsertTranslation now t) st]
    rw [ih ((upsertTranslation now t st).2)]
    exact upsertTranslation_ps now t st

theorem applyUpserts_count_mono (now : Nat) (l : List TransData)
    (sid lc : String) : ∀ st : St,
    transKeyCount st.segment_translations sid lc ≤
      transKeyCount (applyUpserts now l st).2.segment_translations sid lc := by
  induction l with
  | nil => intro st; exact Nat.le_refl _
  | cons t rest ih =>
    intro st
    unfold applyUpserts
    rw [seq_run _ _ (NoRaise_upsertTranslation now t) st]
    exact Nat.le_trans (upsert_count_mono now t st sid lc)
      (ih ((upsertTranslation now t st).2))

theorem applyUpserts_noDup (now : Nat) (l : List TransData) : ∀ st : St,
    transNoDup st.segment_translations →
    transNoDup (applyUpserts now l st).2.segment_translations := by
  induction l with
  | nil => intro st h; exact h
  | cons t rest ih =>
    intro st h
    unfold applyUpserts
    rw [seq_run _ _ (NoRaise_upsertTranslation now t) st]
    exact ih ((upsertTranslation now t st).2) (upsert_noDup now t st h)

theorem applyUpserts_own (now : Nat) (l : List TransData) : ∀ st : St,
    ∀ t ∈ l,
    0 < transKeyCount (applyUpserts now l st).2.segment_translations
        t.segment_id t.language_code := by
  induction l with
  | nil => intro st t ht; simp at ht
  | cons t0 rest ih =>
    intro st t ht
    unfold applyUpserts
    rw [seq_run _ _ (NoRaise_upsertTranslation now t0) st]
    rcases List.mem_cons.mp ht with he | hm
    · subst he
      exact Nat.lt_of_lt_of_le (upsert_own_key now t st)
        (applyUpserts_count_mono now rest t.segment_id t.language_code
          ((upsertTranslation now t st).2))
    · exact ih ((upsertTranslation now t0 st).2) t hm

theorem applyUpserts_len (now : Nat) (l : List TransData) : ∀ st : St,
    (∀ t ∈ l, 0 < transKeyCount st.segment_translations
        t.segment_id t.language_code) →
    (applyUpserts now l st).2.segment_translations.length =
      st.segment_translations.length := by
  induction l with
  | nil => intro st _; rfl
  | cons t0 rest ih =>
    intro st h
    unfold applyUpserts
    rw [seq_run _ _ (NoRaise_upsertTranslation now t0) st]
    rw [ih ((upsertTranslation now t0 st).2)
      (fun t ht => Nat.lt_of_lt_of_le (h t (by simp [ht]))
        (upsert_count_mono now t0 st t.segment_id t.language_code))]
    exact upsert_len_of_key now t0 st (h t0 (by simp))

theorem except_bind_err {e a b : Type} (x : e) (f : a → Except e b) :
    (Except.error x : Except e a) >>= f = .error x := rfl

theorem buildTranslations_nil_map (lang : String)
    (tts : Option (List String)) :
    ∀ (i : Nat) (segs : List SegInput) (l : List TransData),
      buildTranslations lang tts [] i segs = .ok l → l = [] := by
  intro i segs
  induction segs generalizing i with
  | nil =>
    intro l h
    simp only [buildTranslations] at h
    injection h with h
    exact h.symm
  | cons seg rest ih =>
    intro l h
    simp only [buildTranslations] at h
    cases hti : translationIndex i seg with
    | error e =>
      rw [hti, except_bind_err] at h
      exact absurd h (by simp)
    | ok idx =>
      rw [hti, except_bind_ok] at h
      cases hbr : buildTranslations lang tts [] (i + 1) rest with
      | error e =>
        rw [hbr, except_bind_err] at h
        exact absurd h (by simp)
      | ok tail =>
        rw [hbr, except_bind_ok] at h
        simp only [imapLookup, List.find?_nil, Option.map_none'] at h
        injection h with h
        subst h
        exact ih (i + 1) tail hbr

theorem normalizeSegment_pid (pid : String) (i : Nat) (seg : SegInput)
    (c : SegCreate) (h : normalizeSegment pid i seg = .ok c) :
    c.project_id = pid := by
  unfold normalizeSegment at h
  split at h
  · cases hs : (pyFloat (seg.seg_start.getD (.pint 0))).mapError
        (fun _ => PyErr.valueError) with
    | error e => rw [hs, except_bind_err] at h; exact absurd h (by simp)
    | ok s =>
      rw [hs, except_bind_ok] at h
      cases he : (pyFloat (seg.seg_end.getD (.pint 0))).mapError
          (fun _ => PyErr.valueError) with
      | error e => rw [he, except_bind_err] at h; exact absurd h (by simp)
      | ok e =>
        rw [he, except_bind_ok] at h
        injection h with h
        subst h
        rfl
  · cases hs : (pyFloat (seg.seg_start.getD (.pint 0))).mapError
        (fun _ => PyErr.valueError) with
    | error e => rw [hs, except_bind_err] at h; exact absurd h (by simp)
    | ok s =>
      rw [hs, except_bind_ok] at h
      cases he : (pyFloat (seg.seg_end.getD (.pint 0))).mapError
          (fun _ => PyErr.valueError) with
      | error e => rw [he, except_bind_err] at h; exact absurd h (by simp)
      | ok e =>
        rw [he, except_bind_ok] at h
        cases hsi : seg.seg_idx with
        | some v =>
          simp only [hsi] at h
          cases hpi : (pyInt v).mapError (fun _ => PyErr.valueError) with
          | error e2 =>
            rw [hpi, except_bind_err] at h
            exact absurd h (by simp)
          | ok idx =>
            rw [hpi, except_bind_ok] at h
            injection h with h
            subst h
            rfl
        | none =>
          simp only [hsi] at h
          cases hsg : seg.segment_id with
          | some v =>
            simp only [hsg, except_bind_ok] at h
            injection h with h
            subst h
            rfl
          | none =>
            simp only [hsg, except_bind_ok] at h
            injection h with h
            subst h
            rfl

theorem normalizeSegments_pid (pid : String) :
    ∀ (i : Nat) (segs : List SegInput) (scs : List SegCreate),
      normalizeSegments pid i segs = .ok scs →
      ∀ c ∈ scs, c.project_id = pid := by
  intro i segs
  induction segs generalizing i with
  | nil =>
    intro scs h c hc
    simp only [normalizeSegments] at h
    injection h with h
    subst h
    simp at hc
  | cons seg rest ih =>
    intro scs h c hc
    simp only [normalizeSegments] at h
    cases hd : normalizeSegment pid i seg with
    | error e => rw [hd, except_bind_err] at h; exact absurd h (by simp)
    | ok d =>
      rw [hd, except_bind_ok] at h
      cases hr : normalizeSegments pid (i + 1) rest with
      | error e => rw [hr, except_bind_err] at h; exact absurd h (by simp)
      | ok ds =>
        rw [hr, except_bind_ok] at h
        injection h with h
        subst h
        rcases List.mem_cons.mp hc with he | hm
        · subst he; exact normalizeSegment_pid pid i seg c hd
        · exact ih (i + 1) ds hr c hm

theorem ccs_run_then_err (now : Nat) (pid : String) (segs : List SegInput)
    (lang : String) (tts : Option (List String)) (st : St) (e : PyErr)
    (hseg : st.project_segments.filter (fun d => d.project_id = pid) = [])
    (hns : normalizeSegments pid 0 segs = .error e) :
    check_and_create_segments now pid segs lang tts st = (.error e, st) := by
  unfold check_and_create_segments
  simp only [bind_run, get_run]
  rw [hseg]
  rw [if_pos (by simp)]
  simp only [hns, bind_run, throw_run]

theorem ccs_run_then_nil (now : Nat) (pid : String) (segs : List SegInput)
    (lang : String) (tts : Option (List String)) (st : St)
    (hseg : st.project_segments.filter (fun d => d.project_id = pid) = [])
    (hns : normalizeSegments pid 0 segs = .ok []) :
    check_and_create_segments now pid segs lang tts st =
      (if !segs.isEmpty && lang ≠ "" then
        match buildTranslations lang tts [] 0 segs with
        | .error e2 => (.error e2, st)
        | .ok _ => (.ok false, st)
      else (.ok false, st)) := by
  unfold check_and_create_segments
  simp only [bind_run, get_run]
  rw [hseg]
  rw [if_pos (by simp)]
  simp only [hns]
  rw [if_pos (by simp)]
  simp only [bind_run, pure_run]
  by_cases hg : (!segs.isEmpty && lang ≠ "") = true
  · rw [if_pos hg, if_pos hg]
    cases hbt : buildTranslations lang tts [] 0 segs with
    | error e2 => simp only [hbt, bind_run, throw_run]
    | ok l =>
      have hl : l = [] := buildTranslations_nil_map lang tts 0 segs l hbt
      subst hl
      simp only [hbt]
      rw [if_neg (by simp)]
      simp
  · rw [if_neg hg, if_neg hg]
    simp

theorem ccs_run_then_cons (now : Nat) (pid : String) (segs : List SegInput)
    (lang : String) (tts : Option (List String)) (st : St)
    (c : SegCreate) (cs : List SegCreate)
    (hseg : st.project_segments.filter (fun d => d.project_id = pid) = [])
    (hns : normalizeSegments pid 0 segs = .ok (c :: cs)) :
    check_and_create_segments now pid segs lang tts st =
      (if !segs.isEmpty && lang ≠ "" then
        match buildTranslations lang tts
            (buildMapInserted (insertedDocs now st.freshCtr (c :: cs)))
            0 segs with
        | .error e => (.error e, ccsInsertState now st (c :: cs))
        | .ok l =>
          (.ok true,
           if l.isEmpty then ccsInsertState now st (c :: cs)
           else (applyUpserts now l (ccsInsertState now st (c :: cs))).2)
      else (.ok true, ccsInsertState now st (c :: cs))) := by
  unfold check_and_create_segments
  simp only [bind_run, get_run]
  rw [hseg]
  rw [if_pos (by simp)]
  simp only [hns]
  rw [if_neg (by simp)]
  simp only [bind_run, insertSegs_run, pure_run]
  by_cases hg : (!segs.isEmpty && lang ≠ "") = true
  · rw [if_pos hg, if_pos hg]
    cases hbt : buildTranslations lang tts
        (buildMapInserted (insertedDocs now st.freshCtr (c :: cs)))
        0 segs with
    | error e => simp only [hbt, bind_run, throw_run]
    | ok l =>
      simp only [hbt]
      cases l with
      | nil =>
        rw [if_neg (by simp)]
        simp
      | cons t ts =>
        rw [if_pos (by simp)]
        rw [run_block_pure _ _ _ (NoRaise_attempt_pure _ _)]
        rw [attempt_of_noRaise (pure ())
          (ccsInsertState now st (c :: cs)) (NoRaise_applyUpserts now (t :: ts))]
        simp
  · rw [if_neg hg, if_neg hg]
    simp

theorem ccs_run_else (now : Nat) (pid : String) (segs : List SegInput)
    (lang : String) (tts : Option (List String)) (st : St)
    (hne : st.project_segments.filter (fun d => d.project_id = pid) ≠ []) :
    check_and_create_segments now pid segs lang tts st =
      (if !segs.isEmpty && lang ≠ "" then
        match buildTranslations lang tts
            (buildMapExisting
              (st.project_segments.filter (fun d => d.project_id = pid)))
            0 segs with
        | .error e => (.error e, st)
        | .ok l =>
          (.ok true, if l.isEmpty then st else (applyUpserts now l st).2)
      else (.ok true, st)) := by
  unfold check_and_create_segments
  simp only [bind_run, get_run]
  rw [if_neg (by simpa using hne)]
  simp only [bind_run, pure_run]
  by_cases hg : (!segs.isEmpty && lang ≠ "") = true
  · rw [if_pos hg, if_pos hg]
    cases hbt : buildTranslations lang tts
        (buildMapExisting
          (st.project_segments.filter (fun d => d.project_id = pid)))
        0 segs with
    | error e => simp only [hbt, bind_run, throw_run]
    | ok l =>
      simp only [hbt]
      cases l with
      | nil =>
        rw [if_neg (by simp)]
        simp [hne]
      | cons t ts =>
        rw [if_pos (by simp)]
        rw [run_block_pure _ _ _ (NoRaise_attempt_pure _ _)]
        rw [attempt_of_noRaise (pure ()) st (NoRaise_applyUpserts now (t :: ts))]
        simp [hne]
  · rw [if_neg hg, if_neg hg]
    simp [hne]

theorem transNoDup_nil : transNoDup ([] : List TransDoc) := by
  intro sid lc
  simp [transKeyCount]

theorem transCount_pos_of_mem (l : List TransDoc) (d : TransDoc)
    (hd : d ∈ l) : 0 < transKeyCount l d.segment_id d.language_code := by
  simp only [transKeyCount]
  rw [List.countP_pos]
  exact ⟨d, hd, by simp⟩

/-- C3: segment reconciliation is idempotent.  Starting from a state holding
no segments for the project and no translations, running
`check_and_create_segments` twice with identical input leaves the
`project_segments` collection exactly as after the first run, adds no
translation documents in the second run, and leaves exactly one
SegmentTranslation per (segment_id, language_code) pair present. -/
theorem C3_reconcile_idempotent (now1 now2 : Nat) (pid lang : String)
    (segs : List SegInput) (tts : Option (List String))
    (st0 st1 st2 : St) (b1 b2 : Bool)
    (hseg : st0.project_segments.filter (fun d => d.project_id = pid) = [])
    (htr : st0.segment_translations = [])
    (h1 : check_and_create_segments now1 pid segs lang tts st0
      = (.ok b1, st1))
    (h2 : check_and_create_segments now2 pid segs lang tts st1
      = (.ok b2, st2)) :
    st2.project_segments = st1.project_segments ∧
    st2.segment_translations.length = st1.segment_translations.length ∧
    ∀ d ∈ st2.segment_translations,
      transKeyCount st2.segment_translations d.segment_id d.language_code
        = 1 := by
  cases hns : normalizeSegments pid 0 segs with
  | error e =>
    rw [ccs_run_then_err now1 pid segs lang tts st0 e hseg hns] at h1
    exact absurd (congrArg Prod.fst h1) (by simp)
  | ok scs =>
    cases scs with
    | nil =>
      rw [ccs_run_then_nil now1 pid segs lang tts st0 hseg hns] at h1
      by_cases hg : (!segs.isEmpty && lang ≠ "") = true
      · rw [if_pos hg] at h1
        cases hbt : buildTranslations lang tts [] 0 segs with
        | error e =>
          simp only [hbt] at h1
          exact absurd (congrArg Prod.fst h1) (by simp)
        | ok l =>
          simp only [hbt] at h1
          have hst1 : st0 = st1 := congrArg Prod.snd h1
          subst hst1
          rw [ccs_run_then_nil now2 pid segs lang tts st0 hseg hns] at h2
          rw [if_pos hg] at h2
          simp only [hbt] at h2
          have hst2 : st0 = st2 := congrArg Prod.snd h2
          subst hst2
          refine ⟨rfl, rfl, ?_⟩
          intro d hd
          rw [htr] at hd
          simp at hd
      · rw [if_neg hg] at h1
        have hst1 : st0 = st1 := congrArg Prod.snd h1
        subst hst1
        rw [ccs_run_then_nil now2 pid segs lang tts st0 hseg hns] at h2
        rw [if_neg hg] at h2
        have hst2 : st0 = st2 := congrArg Prod.snd h2
        subst hst2
        refine ⟨rfl, rfl, ?_⟩
        intro d hd
        rw [htr] at hd
        simp at hd
    | cons c cs =>
      rw [ccs_run_then_cons now1 pid segs lang tts st0 c cs hseg hns] at h1
      have hpid : ∀ doc ∈ insertedDocs now1 st0.freshCtr (c :: cs),
          doc.project_id = pid :=
        insertedDocs_pid now1 st0.freshCtr pid (c :: cs)
          (normalizeSegments_pid pid 0 segs (c :: cs) hns)
      have hStA : (ccsInsertState now1 st0 (c :: cs)).project_segments
          = st0.project_segments ++ insertedDocs now1 st0.freshCtr (c :: cs) :=
        rfl
      have hStAtr : (ccsInsertState now1 st0 (c :: cs)).segment_translations
          = st0.segment_translations := rfl
      have hfilA : (ccsInsertState now1 st0 (c :: cs)).project_segments.filter
          (fun d => d.project_id = pid)
          = insertedDocs now1 st0.freshCtr (c :: cs) := by
        rw [hStA]
        exact filter_append_eq _ _ _ hseg
          (fun x hx => by simpa using hpid x hx)
      have hdocs_ne : insertedDocs now1 st0.freshCtr (c :: cs) ≠ [] := by
        simp [insertedDocs]
      by_cases hg : (!segs.isEmpty && lang ≠ "") = true
      · rw [if_pos hg] at h1
        cases hbt : buildTranslations lang tts
            (buildMapInserted (insertedDocs now1 st0.freshCtr (c :: cs)))
            0 segs with
        | error e =>
          simp only [hbt] at h1
          exact absurd (congrArg Prod.fst h1) (by simp)
        | ok l =>
          simp only [hbt] at h1
          cases l with
          | nil =>
            rw [if_pos (by simp)] at h1
            have hst1 : st1 = ccsInsertState now1 st0 (c :: cs) :=
              (congrArg Prod.snd h1).symm
            subst hst1
            rw [ccs_run_else now2 pid segs lang tts _
              (by rw [hfilA]; exact hdocs_ne)] at h2
            rw [if_pos hg] at h2
            rw [hfilA] at h2
            rw [show buildMapExisting (insertedDocs now1 st0.freshCtr (c :: cs))
                = buildMapInserted (insertedDocs now1 st0.freshCtr (c :: cs))
              from rfl] at h2
            simp only [hbt] at h2
            rw [if_pos (by simp)] at h2
            have hst2 : st2 = ccsInsertState now1 st0 (c :: cs) :=
              (congrArg Prod.snd h2).symm
            subst hst2
            refine ⟨rfl, rfl, ?_⟩
            intro d hd
            rw [hStAtr, htr] at hd
            simp at hd
          | cons t ts =>
            rw [if_neg (by simp)] at h1
            have hst1 : st1 = (applyUpserts now1 (t :: ts)
                (ccsInsertState now1 st0 (c :: cs))).2 :=
              (congrArg Prod.snd h1).symm
            subst hst1
            have hfil1 : ((applyUpserts now1 (t :: ts)
                (ccsInsertState now1 st0 (c :: cs))).2).project_segments.filter
                (fun d => d.project_id = pid)
                = insertedDocs now1 st0.freshCtr (c :: cs) := by
              rw [applyUpserts_ps]
              exact hfilA
            rw [ccs_run_else now2 pid segs lang tts _
              (by rw [hfil1]; exact hdocs_ne)] at h2
            rw [if_pos hg] at h2
            rw [hfil1] at h2
            rw [show buildMapExisting (insertedDocs now1 st0.freshCtr (c :: cs))
                = buildMapInserted (insertedDocs now1 st0.freshCtr (c :: cs))
              from rfl] at h2
            simp only [hbt] at h2
            rw [if_neg (by simp)] at h2
            have hst2 : st2 = (applyUpserts now2 (t :: ts)
                ((applyUpserts now1 (t :: ts)
                  (ccsInsertState now1 st0 (c :: cs))).2)).2 :=
              (congrArg Prod.snd h2).symm
            subst hst2
            have hinv1 : transNoDup ((applyUpserts now1 (t :: ts)
                (ccsInsertState now1 st0 (c :: cs))).2).segment_translations :=
              applyUpserts_noDup now1 (t :: ts) _
                (by rw [hStAtr, htr]; exact transNoDup_nil)
            have hkeys : ∀ tr ∈ (t :: ts), 0 < transKeyCount
                ((applyUpserts now1 (t :: ts)
                  (ccsInsertState now1 st0 (c :: cs))).2).segment_translations
                tr.segment_id tr.language_code :=
              fun tr htrm => applyUpserts_own now1 (t :: ts) _ tr htrm
            refine ⟨applyUpserts_ps now2 (t :: ts) _, ?_, ?_⟩
            · exact applyUpserts_len now2 (t :: ts) _ hkeys
            · intro d hd
              have hinv2 : transNoDup ((applyUpserts now2 (t :: ts)
                  ((applyUpserts now1 (t :: ts)
                    (ccsInsertState now1 st0 (c :: cs))).2)).2).segment_translations :=
                applyUpserts_noDup now2 (t :: ts) _ hinv1
              have hle := hinv2 d.segment_id d.language_code
              have hpos := transCount_pos_of_mem _ d hd
              omega
      · rw [if_neg hg] at h1
        have hst1 : st1 = ccsInsertState now1 st0 (c :: cs) :=
          (congrArg Prod.snd h1).symm
        subst hst1
        rw [ccs_run_else now2 pid segs lang tts _
          (by rw [hfilA]; exact hdocs_ne)] at h2
        rw [if_neg hg] at h2
        have hst2 : st2 = ccsInsertState now1 st0 (c :: cs) :=
          (congrArg Prod.snd h2).symm
        subst hst2
        refine ⟨rfl, rfl, ?_⟩
        intro d hd
        rw [hStAtr, htr] at hd
        simp at hd

theorem C3_reconcile_idempotent_witness :
    ((check_and_create_segments 1 "p1"
        [{ speaker_tag := some "S0", seg_start := some (.pint 0),
           seg_end := some (.pint 1), source_text := some "hi",
           prompt_text := some "bonjour" }] "fr" none
        ((check_and_create_segments 0 "p1"
          [{ speaker_tag := some "S0", seg_start := some (.pint 0),
             seg_end := some (.pint 1), source_text := some "hi",
             prompt_text := some "bonjour" }] "fr" none baseSt).2)).2
      ).project_segments =
      ((check_and_create_segments 0 "p1"
        [{ speaker_tag := some "S0", seg_start := some (.pint 0),
           seg_end := some (.pint 1), source_text := some "hi",
           prompt_text := some "bonjour" }] "fr" none baseSt).2
      ).project_segments ∧
    ((check_and_create_segments 1 "p1"
        [{ speaker_tag := some "S0", seg_start := some (.pint 0),
           seg_end := some (.pint 1), source_text := some "hi",
           prompt_text := some "bonjour" }] "fr" none
        ((check_and_create_segments 0 "p1"
          [{ speaker_tag := some "S0", seg_start := some (.pint 0),
             seg_end := some (.pint 1), source_text := some "hi",
             prompt_text := some "bonjour" }] "fr" none baseSt).2)).2
      ).segment_translations.length =
      ((check_and_create_segments 0 "p1"
        [{ speaker_tag := some "S0", seg_start := some (.pint 0),
           seg_end := some (.pint 1), source_text := some "hi",
           prompt_text := some "bonjour" }] "fr" none baseSt).2
      ).segment_translations.length ∧
    ∀ d ∈ ((check_and_create_segments 1 "p1"
        [{ speaker_tag := some "S0", seg_start := some (.pint 0),
           seg_end := some (.pint 1), source_text := some "hi",
           prompt_text := some "bonjour" }] "fr" none
        ((check_and_create_segments 0 "p1"
          [{ speaker_tag := some "S0", seg_start := some (.pint 0),
             seg_end := some (.pint 1), source_text := some "hi",
             prompt_text := some "bonjour" }] "fr" none baseSt).2)).2
      ).segment_translations,
      transKeyCount ((check_and_create_segments 1 "p1"
        [{ speaker_tag := some "S0", seg_start := some (.pint 0),
           seg_end := some (.pint 1), source_text := some "hi",
           prompt_text := some "bonjour" }] "fr" none
        ((check_and_create_segments 0 "p1"
          [{ speaker_tag := some "S0", seg_start := some (.pint 0),
             seg_end := some (.pint 1), source_text := some "hi",
             prompt_text := some "bonjour" }] "fr" none baseSt).2)).2
      ).segment_translations d.segment_id d.language_code = 1 :=
  C3_reconcile_idempotent 0 1 "p1" "fr"
    [{ speaker_tag := some "S0", seg_start := some (.pint 0),
       seg_end := some (.pint 1), source_text := some "hi",
       prompt_text := some "bonjour" }] none
    baseSt
    ((check_and_create_segments 0 "p1"
      [{ speaker_tag := some "S0", seg_start := some (.pint 0),
         seg_end := some (.pint 1), source_text := some "hi",
         prompt_text := some "bonjour" }] "fr" none baseSt).2)
    ((check_and_create_segments 1 "p1"
      [{ speaker_tag := some "S0", seg_start := some (.pint 0),
         seg_end := some (.pint 1), source_text := some "hi",
         prompt_text := some "bonjour" }] "fr" none
      ((check_and_create_segments 0 "p1"
        [{ speaker_tag := some "S0", seg_start := some (.pint 0),
           seg_end := some (.pint 1), source_text := some "hi",
           prompt_text := some "bonjour" }] "fr" none baseSt).2)).2)
    true true rfl rfl (by decide) (by decide)

theorem strTruthy_of_ne (s : String) (h : s ≠ "") :
    strTruthy (some s) = some s := by
  simp [strTruthy, h]

theorem find?_map_setkey (m : List (String × PyVal)) (k k' : String)
    (v : PyVal) (h : k ≠ k') :
    (m.map (fun p => if p.1 = k then (k, v) else p)).find?
      (fun p => p.1 = k') = m.find? (fun p => p.1 = k') := by
  induction m with
  | nil => rfl
  | cons p ps ih =>
    simp only [List.map_cons, List.find?_cons]
    by_cases hp : p.1 = k
    · rw [if_pos hp]
      have h1 : (decide ((k, v).1 = k')) = false := by simp [h]
      have h2 : (decide (p.1 = k')) = false := by simp [hp, h]
      rw [h1, h2]
      exact ih
    · rw [if_neg hp]
      cases hq : (decide (p.1 = k'))
      · simp only [ih]
      · rfl

theorem dictLookup_dictSet_ne (m : List (String × PyVal)) (k k' : String)
    (v : PyVal) (h : k ≠ k') :
    dictLookup (dictSet m k v) k' = dictLookup m k' := by
  unfold dictSet dictLookup
  split
  · rw [find?_map_setkey m k k' v h]
  · rw [List.find?_append]
    cases hf : m.find? (fun p => p.1 = k') with
    | some x => rfl
    | none =>
      have hkv : (decide (((k, v)).1 = k')) = false := by simp [h]
      simp [List.find?, hkv]

theorem find?_append_last {α : Type} (p : α → Bool) (l : List α) (x : α)
    (hl : ∀ y ∈ l, p y = false) (hx : p x = true) :
    (l ++ [x]).find? p = some x := by
  induction l with
  | nil => simp [List.find?, hx]
  | cons y ys ih =>
    rw [List.cons_append, List.find?_cons_of_neg _ (by simp [hl y (by simp)])]
    exact ih (fun z hz => hl z (by simp [hz]))

theorem updateFirst_append_last {α : Type} (p : α → Bool) (f : α → α)
    (l : List α) (x : α) (hl : ∀ y ∈ l, p y = false) :
    updateFirst p f (l ++ [x]) = l ++ [if p x then f x else x] := by
  induction l with
  | nil => simp [updateFirst]; split <;> rfl
  | cons y ys ih =>
    rw [List.cons_append]
    simp only [updateFirst]
    rw [if_neg (by simp [hl y (by simp)])]
    rw [List.cons_append]
    rw [ih (fun z hz => hl z (by simp [hz]))]

theorem build_msg_target_lang (job : JobDoc) (l : String)
    (htl : job.target_lang = some l) (hl : l ≠ "")
    (htask : strTruthy job.task = some "full_pipeline")
    (hpl : job.task_payload = []) :
    dictLookup (_build_job_message job) "target_lang" = some (.pstr l) := by
  unfold _build_job_message
  rw [htask, htl, strTruthy_of_ne l hl]
  rw [if_neg (by decide)]
  cases hik : strTruthy job.input_key with
  | none =>
    cases hsl : strTruthy job.source_lang with
    | none => simp [dictLookup, List.find?, hpl]
    | some s => simp [dictLookup, List.find?, hpl]
  | some k =>
    cases hsl : strTruthy job.source_lang with
    | none => simp [dictLookup, List.find?, hpl]
    | some s => simp [dictLookup, List.find?, hpl]

theorem enqueue_job_eval (cfg : SqsConfig) (env : Env) (job : JobDoc)
    (vc : Option PyVal) (u : String)
    (hu : strTruthy cfg.jobQueueUrl = some u) :
    ∃ msg : SqsMessage,
      msg.body = (match vc with
        | some v => dictSet (_build_job_message job) "voice_config" v
        | none => _build_job_message job) ∧
      enqueue_job cfg env job vc =
        (match env.sqsSend msg with
         | .ok _ => .ok (some msg)
         | .error _ => .error .sqsPublishError) := by
  unfold enqueue_job
  rw [hu]
  refine ⟨_, ?_, rfl⟩
  dsimp only
  split
  · rfl
  · rfl

theorem enqueue_job_decided (cfg : SqsConfig) (env : Env) (job : JobDoc)
    (vc : Option PyVal) (sendOk : String → Bool) (l : String)
    (hdec : sqsDecidedBy env sendOk)
    (hurl : strTruthy cfg.jobQueueUrl ≠ none)
    (htl : job.target_lang = some l) (hl : l ≠ "")
    (htask : strTruthy job.task = some "full_pipeline")
    (hpl : job.task_payload = []) :
    (sendOk l = true → ∃ m, enqueue_job cfg env job vc = .ok (some m)) ∧
    (sendOk l = false →
      enqueue_job cfg env job vc = .error .sqsPublishError) := by
  cases hu : strTruthy cfg.jobQueueUrl with
  | none => exact absurd hu hurl
  | some u =>
    obtain ⟨msg, hmb, heq⟩ := enqueue_job_eval cfg env job vc u hu
    have hlang : msgLangOk sendOk msg = sendOk l := by
      unfold msgLangOk msgTargetLang
      rw [hmb]
      cases vc with
      | none => rw [build_msg_target_lang job l htl hl htask hpl]
      | some v =>
        rw [dictLookup_dictSet_ne _ _ _ _ (by decide)]
        rw [build_msg_target_lang job l htl hl htask hpl]
    constructor
    · intro hok
      refine ⟨msg, ?_⟩
      rw [heq, hdec msg, hlang, hok]
      rw [if_pos rfl]
    · intro hko
      rw [heq, hdec msg, hlang, hko]
      rw [if_neg (by simp)]

theorem create_job_run_some (payload : JobCreateArgs) (oid : String)
    (st : St) :
    create_job payload (some oid) st =
      (.ok (createdDoc payload oid),
       { st with jobs := st.jobs ++ [createdDoc payload oid] }) := by
  unfold create_job createdDoc
  simp only [bind_run, pure_run, modify_run]

theorem seq_pure_of_ok {α β : Type} (m : M α) (a : α) (v : β) (st : St)
    (h : (m st).1 = .ok a) :
    (m >>= fun _ => pure v) st = (.ok v, (m st).2) := by
  rw [bind_run]
  cases hm : m st with
  | mk f s =>
    rw [hm] at h
    have h' : f = Except.ok a := h
    subst h'
    rfl

theorem update_job_status_fst (jid : String) (payload : JobUpdateStatus)
    (message : Option String) (st : St) (job : JobDoc)
    (hjob : st.jobs.find? (fun j => j.id = objectId jid) = some job) :
    (update_job_status jid payload message st).1 =
      .ok (applyJobStatusUpdate payload message job) := by
  rw [update_job_status_run jid payload message st job hjob]

theorem update_job_status_jobs (jid : String) (payload : JobUpdateStatus)
    (message : Option String) (st : St) (job : JobDoc)
    (hjob : st.jobs.find? (fun j => j.id = objectId jid) = some job) :
    ((update_job_status jid payload message st).2).jobs =
      updateFirst (fun j => j.id = objectId jid)
        (applyJobStatusUpdate payload message) st.jobs := by
  rw [update_job_status_run jid payload message st job hjob]
  dsimp only
  split
  · rfl
  · rfl

theorem update_job_status_ctr (jid : String) (payload : JobUpdateStatus)
    (message : Option String) (st : St) (job : JobDoc)
    (hjob : st.jobs.find? (fun j => j.id = objectId jid) = some job) :
    ((update_job_status jid payload message st).2).freshCtr = st.freshCtr := by
  rw [update_job_status_run jid payload message st job hjob]
  dsimp only
  split
  · rfl
  · rfl

theorem sjft_loop_run (cfg : SqsConfig) (env : Env) (cb : String)
    (vc : Option PyVal) (project : ProjectPublicM) (sendOk : String → Bool)
    (hdec : sqsDecidedBy env sendOk)
    (hurl : strTruthy cfg.jobQueueUrl ≠ none) :
    ∀ (langs : List String) (acc : List JobCreatedInfo) (st : St),
      (∀ l ∈ langs, l ≠ "") →
      jobsIdsBelow st.jobs st.freshCtr →
      ∃ st',
        sjft_loop cfg env cb vc project langs acc st =
          (.ok (acc ++ sjftInfos project sendOk st.freshCtr langs), st') ∧
        st'.jobs = st.jobs ++ sjftJobs project cb sendOk st.freshCtr langs ∧
        st'.freshCtr = st.freshCtr + langs.length := by
  intro langs
  induction langs with
  | nil =>
    intro acc st _ _
    exact ⟨st, by simp [sjft_loop, sjftInfos], by simp [sjftJobs], by simp⟩
  | cons l ls ih =>
    intro acc st hlangs hbelow
    have hlne : l ≠ "" := hlangs l (by simp)
    obtain ⟨hok_imp, hko_imp⟩ := enqueue_job_decided cfg env
      (sjftCreatedDoc project cb st.freshCtr l) vc sendOk l hdec hurl rfl hlne
      rfl rfl
    unfold sjft_loop
    simp only [bind_run, freshId_run, attempt_run, create_job_run_some]
    rw [show createdDoc
        { project_id := project.project_id,
          input_key := project.video_source,
          callback_url := rstripSlash cb ++ "/api/jobs/"
            ++ oidOf st.freshCtr ++ "/status",
          target_lang := some l, source_lang := project.source_language }
        (oidOf st.freshCtr) = sjftCreatedDoc project cb st.freshCtr l from rfl]
    cases hsend : sendOk l with
    | true =>
      obtain ⟨m, hm⟩ := hok_imp hsend
      simp only [hm, pure_run]
      obtain ⟨st', hrun, hjobs, hctr⟩ := ih (acc ++
        [{ project_id := project.project_id,
           job_id := oidOf st.freshCtr, target_lang := l,
           status := "queued" }])
        { st with
          jobs := st.jobs ++ [sjftCreatedDoc project cb st.freshCtr l],
          freshCtr := st.freshCtr + 1 }
        (fun x hx => hlangs x (by simp [hx]))
        (by
          dsimp only [jobsIdsBelow]
          intro j hj
          rcases List.mem_append.mp hj with hin | hsing
          · obtain ⟨k, hk, hid⟩ := hbelow j hin
            exact ⟨k, by omega, hid⟩
          · rw [List.mem_singleton] at hsing
            subst hsing
            exact ⟨st.freshCtr, by omega, rfl⟩)
      refine ⟨st', ?_, ?_, ?_⟩
      · have hval : acc ++
            [({ project_id := project.project_id,
                job_id := oidOf st.freshCtr, target_lang := l,
                status := "queued" } : JobCreatedInfo)] ++
              sjftInfos project sendOk (st.freshCtr + 1) ls
            = acc ++ sjftInfos project sendOk st.freshCtr (l :: ls) := by
          simp [sjftInfos, hsend, List.append_assoc]
        rw [← hval]
        exact hrun
      · rw [hjobs]
        show st.jobs ++ [sjftCreatedDoc project cb st.freshCtr l]
            ++ sjftJobs project cb sendOk (st.freshCtr + 1) ls
          = st.jobs ++ sjftJobs project cb sendOk st.freshCtr (l :: ls)
        simp [sjftJobs, hsend, List.append_assoc]
      · rw [hctr]
        show st.freshCtr + 1 + ls.length = st.freshCtr + (l :: ls).length
        simp [List.length_cons]
        omega
    | false =>
      have hm := hko_imp hsend
      simp only [hm, throw_run]
      have hfind : (({ st with
          jobs := st.jobs ++ [sjftCreatedDoc project cb st.freshCtr l],
          freshCtr := st.freshCtr + 1 } : St)).jobs.find?
          (fun j => j.id = objectId (oidOf st.freshCtr))
          = some (sjftCreatedDoc project cb st.freshCtr l) := by
        dsimp only
        refine find?_append_last _ _ _ ?_
          (by simp [objectId, sjftCreatedDoc])
        intro y hy
        obtain ⟨k, hk, hid⟩ := hbelow y hy
        simp only [objectId, hid, decide_eq_false_iff_not]
        intro hEq
        exact absurd (oidOf_injective hEq) (by omega)
      simp only [mark_job_failed]
      have hup : update_job_status (oidOf st.freshCtr)
          { status := "failed", error := some "sqs_publish_failed",
            result_key := none, message := some "enqueue failed" }
          (some "enqueue failed")
          { st with
            jobs := st.jobs ++ [sjftCreatedDoc project cb st.freshCtr l],
            freshCtr := st.freshCtr + 1 }
          = (.ok (applyJobStatusUpdate
              { status := "failed", error := some "sqs_publish_failed",
                result_key := none, message := some "enqueue failed" }
              (some "enqueue failed")
              (sjftCreatedDoc project cb st.freshCtr l)),
             (update_job_status (oidOf st.freshCtr)
              { status := "failed", error := some "sqs_publish_failed",
                result_key := none, message := some "enqueue failed" }
              (some "enqueue failed")
              { st with
                jobs := st.jobs ++ [sjftCreatedDoc project cb st.freshCtr l],
                freshCtr := st.freshCtr + 1 }).2) := by
        rw [update_job_status_run _ _ _ _ _ hfind]
      rw [hup]
      simp only [pure_run]
      have hjq : ((update_job_status (oidOf st.freshCtr)
          { status := "failed", error := some "sqs_publish_failed",
            result_key := none, message := some "enqueue failed" }
          (some "enqueue failed")
          { st with
            jobs := st.jobs ++ [sjftCreatedDoc project cb st.freshCtr l],
            freshCtr := st.freshCtr + 1 }).2).jobs
          = st.jobs ++
            [sjftFailedDoc (sjftCreatedDoc project cb st.freshCtr l)] := by
        rw [update_job_status_jobs _ _ _ _ _ hfind]
        dsimp only
        rw [updateFirst_append_last _ _ _ _ ?_]
        · rw [if_pos (by simp [objectId, sjftCreatedDoc])]
          rfl
        · intro y hy
          obtain ⟨k, hk, hid⟩ := hbelow y hy
          simp only [objectId, hid, decide_eq_false_iff_not]
          intro hEq
          exact absurd (oidOf_injective hEq) (by omega)
      have hcq : ((update_job_status (oidOf st.freshCtr)
          { status := "failed", error := some "sqs_publish_failed",
            result_key := none, message := some "enqueue failed" }
          (some "enqueue failed")
          { st with
            jobs := st.jobs ++ [sjftCreatedDoc project cb st.freshCtr l],
            freshCtr := st.freshCtr + 1 }).2).freshCtr
          = st.freshCtr + 1 := by
        rw [update_job_status_ctr _ _ _ _ _ hfind]
      obtain ⟨st', hrun, hjobs, hctr⟩ := ih acc
        ((update_job_status (oidOf st.freshCtr)
          { status := "failed", error := some "sqs_publish_failed",
            result_key := none, message := some "enqueue failed" }
          (some "enqueue failed")
          { st with
            jobs := st.jobs ++ [sjftCreatedDoc project cb st.freshCtr l],
            freshCtr := st.freshCtr + 1 }).2)
        (fun x hx => hlangs x (by simp [hx]))
        (by
          rw [jobsIdsBelow, hjq, hcq]
          intro j hj
          rcases List.mem_append.mp hj with hin | hsing
          · obtain ⟨k, hk, hid⟩ := hbelow j hin
            exact ⟨k, by omega, hid⟩
          · rw [List.mem_singleton] at hsing
            subst hsing
            refine ⟨st.freshCtr, by omega, ?_⟩
            show (sjftFailedDoc
              (sjftCreatedDoc project cb st.freshCtr l)).id
              = oidOf st.freshCtr
            rw [sjftFailedDoc, applyJobStatusUpdate_id]
            rfl)
      rw [hcq] at hrun hctr
      rw [hjq, hcq] at hjobs
      refine ⟨st', ?_, ?_, ?_⟩
      · have hval : acc ++ sjftInfos project sendOk (st.freshCtr + 1) ls
            = acc ++ sjftInfos project sendOk st.freshCtr (l :: ls) := by
          simp [sjftInfos, hsend]
        rw [← hval]
        exact hrun
      · rw [hjobs]
        show st.jobs ++
            [sjftFailedDoc (sjftCreatedDoc project cb st.freshCtr l)]
            ++ sjftJobs project cb sendOk (st.freshCtr + 1) ls
          = st.jobs ++ sjftJobs project cb sendOk st.freshCtr (l :: ls)
        simp [sjftJobs, hsend, List.append_assoc]
      · rw [hctr]
        show st.freshCtr + 1 + ls.length = st.freshCtr + (l :: ls).length
        simp [List.length_cons]
        omega

theorem sjftInfos_map (project : ProjectPublicM) (sendOk : String → Bool) :
    ∀ (langs : List String) (ctr : Nat),
      (sjftInfos project sendOk ctr langs).map (fun i => i.target_lang)
        = langs.filter sendOk := by
  intro langs
  induction langs with
  | nil => intro ctr; rfl
  | cons l ls ih =>
    intro ctr
    cases hsend : sendOk l with
    | true => simp [sjftInfos, List.filter_cons, hsend, ih (ctr + 1)]
    | false => simp [sjftInfos, List.filter_cons, hsend, ih (ctr + 1)]

theorem sjftInfos_mem (project : ProjectPublicM) (sendOk : String → Bool) :
    ∀ (langs : List String) (ctr : Nat),
      ∀ i ∈ sjftInfos project sendOk ctr langs,
        i.project_id = project.project_id ∧ i.status = "queued" := by
  intro langs
  induction langs with
  | nil => intro ctr i hi; simp [sjftInfos] at hi
  | cons l ls ih =>
    intro ctr i hi
    simp only [sjftInfos, List.mem_append] at hi
    cases hi with
    | inr h => exact ih (ctr + 1) i h
    | inl h =>
      cases hsend : sendOk l with
      | true =>
        rw [if_pos hsend] at h
        rw [List.mem_singleton] at h
        subst h
        exact ⟨rfl, rfl⟩
      | false =>
        rw [if_neg (by simp [hsend])] at h
        simp at h

theorem sjftInfos_nil_iff (project : ProjectPublicM) (sendOk : String → Bool)
    (langs : List String) (ctr : Nat) :
    sjftInfos project sendOk ctr langs = [] ↔ langs.filter sendOk = [] := by
  constructor
  · intro h
    have := sjftInfos_map project sendOk langs ctr
    rw [h] at this
    simpa using this.symm
  · intro h
    have := sjftInfos_map project sendOk langs ctr
    rw [h] at this
    exact List.map_eq_nil.mp this

theorem sjftJobs_forall2 (project : ProjectPublicM) (cb : String)
    (sendOk : String → Bool) :
    ∀ (langs : List String) (ctr : Nat),
      List.Forall₂ (fun l j => j.target_lang = some l ∧
          j.status = (if sendOk l then "queued" else "failed") ∧
          (sendOk l = false → j.error = some "sqs_publish_failed"))
        langs (sjftJobs project cb sendOk ctr langs) := by
  intro langs
  induction langs with
  | nil => intro ctr; exact List.Forall₂.nil
  | cons l ls ih =>
    intro ctr
    refine List.Forall₂.cons ?_ (ih (ctr + 1))
    cases hsend : sendOk l with
    | true =>
      refine ⟨?_, ?_, ?_⟩
      · simp [sjftJobs, hsend, sjftCreatedDoc]
      · simp [sjftJobs, hsend, sjftCreatedDoc]
      · intro hko
        exact absurd hko (by simp)
    | false =>
      refine ⟨?_, ?_, ?_⟩
      · simp [sjftJobs, hsend, sjftFailedDoc, applyJobStatusUpdate,
          sjftCreatedDoc]
      · simp [sjftJobs, hsend, sjftFailedDoc, applyJobStatusUpdate,
          sjftCreatedDoc]
      · intro hko
        simp [sjftJobs, hsend, sjftFailedDoc, applyJobStatusUpdate,
          sjftCreatedDoc]

/-- C4: the per-language fan-out of `start_jobs_for_targets`, under a queue
whose availability is decided per language.  One Job is created per target
language (Forall₂), exactly the successfully enqueued languages are returned
(each entry queued, for this project, in input order), a failed language's
Job — and only it — is marked failed with the SQS error recorded, and the
call raises 503 exactly when no language succeeded. -/
theorem C4_fan_out (cfg : SqsConfig) (env : Env) (project : ProjectPublicM)
    (langs : List String) (sendOk : String → Bool) (cb : String) (st : St)
    (hdec : sqsDecidedBy env sendOk)
    (hurl : strTruthy cfg.jobQueueUrl ≠ none)
    (hcb : _resolve_callback_base cfg = .ok cb)
    (hlangs : ∀ l ∈ langs, l ≠ "")
    (hbelow : jobsIdsBelow st.jobs st.freshCtr) :
    ∃ st',
      (start_jobs_for_targets cfg env project langs st =
        (if langs.filter sendOk = [] then (.error (.httpError 503), st')
         else (.ok (sjftInfos project sendOk st.freshCtr langs), st'))) ∧
      (sjftInfos project sendOk st.freshCtr langs).map
          (fun i => i.target_lang) = langs.filter sendOk ∧
      (∀ i ∈ sjftInfos project sendOk st.freshCtr langs,
        i.project_id = project.project_id ∧ i.status = "queued") ∧
      st'.jobs = st.jobs ++ sjftJobs project cb sendOk st.freshCtr langs ∧
      List.Forall₂ (fun l j => j.target_lang = some l ∧
          j.status = (if sendOk l then "queued" else "failed") ∧
          (sendOk l = false → j.error = some "sqs_publish_failed"))
        langs (sjftJobs project cb sendOk st.freshCtr langs) := by
  obtain ⟨st', hrun, hjobs, hctr⟩ := sjft_loop_run cfg env cb
    (match st.projects.find? (fun d => d.id = objectId project.project_id) with
     | some d => d.voice_config
     | none => none)
    project sendOk hdec hurl langs [] st hlangs hbelow
  refine ⟨st', ?_, sjftInfos_map project sendOk langs st.freshCtr,
    sjftInfos_mem project sendOk langs st.freshCtr, hjobs,
    sjftJobs_forall2 project cb sendOk langs st.freshCtr⟩
  unfold start_jobs_for_targets
  simp only [hcb, bind_run, get_run]
  rw [hrun]
  by_cases hnil : sjftInfos project sendOk st.freshCtr langs = []
  · rw [if_pos ((sjftInfos_nil_iff project sendOk langs st.freshCtr).mp hnil)]
    simp [hnil]
  · rw [if_neg (fun hf => hnil
      ((sjftInfos_nil_iff project sendOk langs st.freshCtr).mpr hf))]
    have hne : ([] ++ sjftInfos project sendOk st.freshCtr langs).isEmpty
        = false := by
      simp only [List.nil_append]
      cases hI : sjftInfos project sendOk st.freshCtr langs with
      | nil => exact absurd hI hnil
      | cons a as => rfl
    dsimp only
    rw [if_neg (by simpa using hnil)]
    simp

theorem C4_fan_out_witness :
    ∃ st',
      (start_jobs_for_targets
        { jobQueueUrl := some "q", appEnvDev := false, jobQueueFifo := true,
          messageGroupId := none, callbackBase := some "http://cb" }
        { downloadParseMetadata := fun _ => .error (),
          audioDuration := fun _ => .ok none,
          sqsSend := fun msg =>
            if msgLangOk (fun l => decide (l = "en")) msg then .ok ()
            else .error () }
        { project_id := "p1" } ["en", "ko"] baseSt =
        (if ["en", "ko"].filter (fun l => decide (l = "en")) = [] then
          (.error (.httpError 503), st')
         else
          (.ok (sjftInfos { project_id := "p1" } (fun l => decide (l = "en"))
            baseSt.freshCtr ["en", "ko"]), st'))) ∧
      (sjftInfos { project_id := "p1" } (fun l => decide (l = "en"))
          baseSt.freshCtr ["en", "ko"]).map (fun i => i.target_lang)
        = ["en", "ko"].filter (fun l => decide (l = "en")) ∧
      (∀ i ∈ sjftInfos { project_id := "p1" } (fun l => decide (l = "en"))
          baseSt.freshCtr ["en", "ko"],
        i.project_id = ({ project_id := "p1" } : ProjectPublicM).project_id ∧
        i.status = "queued") ∧
      st'.jobs = baseSt.jobs ++ sjftJobs { project_id := "p1" } "http://cb"
        (fun l => decide (l = "en")) baseSt.freshCtr ["en", "ko"] ∧
      List.Forall₂ (fun l j => j.target_lang = some l ∧
          j.status = (if decide (l = "en") then "queued" else "failed") ∧
          (decide (l = "en") = false →
            j.error = some "sqs_publish_failed"))
        ["en", "ko"] (sjftJobs { project_id := "p1" } "http://cb"
          (fun l => decide (l = "en")) baseSt.freshCtr ["en", "ko"]) :=
  C4_fan_out
    { jobQueueUrl := some "q", appEnvDev := false, jobQueueFifo := true,
      messageGroupId := none, callbackBase := some "http://cb" }
    { downloadParseMetadata := fun _ => .error (),
      audioDuration := fun _ => .ok none,
      sqsSend := fun msg =>
        if msgLangOk (fun l => decide (l = "en")) msg then .ok ()
        else .error () }
    { project_id := "p1" } ["en", "ko"] (fun l => decide (l = "en"))
    "http://cb" baseSt
    (fun msg => rfl) (by decide) (by decide) (by decide)
    (by intro j hj; simp [baseSt] at hj)
